import Mathlib

/-! Flamquency native engine: shallow embedding and verified properties.

The embedding follows the C++ sources under `flamquency-native/src`.

Conventions of the embedding:
* `float` and `double` are modelled by exact rationals (`ℚ`); rounding, NaN and
  infinities are outside the model, so a computed value is stated as the
  expression the code evaluates and never as bit-equal to a stored value.
* `int` is modelled by `Int`; none of the modelled paths overflows.
* Member functions become functions from the object state to the new state
  (and the returned value where there is one).
* JUCE library classes used by the sources (`juce::AbstractFifo`,
  `juce::AudioBuffer`, `juce::AudioProcessorGraph`) are embedded from the
  behaviour of the JUCE implementation; each such definition says so.
-/

namespace Flamquency

/-! ## utils/LockFreeQueue.h -/

/-- State of `juce::AbstractFifo` (JUCE library, `juce_AbstractFifo.cpp`): the
total buffer size and the two ring indices. -/
structure AbstractFifo where
  bufferSize : Int
  validStart : Int
  validEnd : Int
deriving DecidableEq, Repr

/-- The four out-parameters of `prepareToWrite` / `prepareToRead`. -/
structure FifoBlocks where
  start1 : Int
  size1 : Int
  start2 : Int
  size2 : Int
deriving DecidableEq, Repr

/-- Constructor `juce::AbstractFifo (int capacity)`: both indices start at 0. -/
def AbstractFifo.init (capacity : Int) : AbstractFifo :=
  { bufferSize := capacity, validStart := 0, validEnd := 0 }

/-- JUCE `AbstractFifo::prepareToWrite`: the free space is computed from the
two indices and ONE slot is always kept unused
(`numToWrite = jmin (numToWrite, freeSpace - 1)`). -/
def AbstractFifo.prepareToWrite (f : AbstractFifo) (numToWrite : Int) : FifoBlocks :=
  let vs := f.validStart
  let ve := f.validEnd
  let freeSpace := if ve ≥ vs then f.bufferSize - (ve - vs) else vs - ve
  let numToWrite := min numToWrite (freeSpace - 1)
  if numToWrite ≤ 0 then
    { start1 := 0, size1 := 0, start2 := 0, size2 := 0 }
  else
    let blockSize1 := min (f.bufferSize - ve) numToWrite
    let numToWrite := numToWrite - blockSize1
    { start1 := ve, size1 := blockSize1, start2 := 0,
      size2 := if numToWrite ≤ 0 then 0 else min numToWrite vs }

/-- JUCE `AbstractFifo::finishedWrite`: advance the write index modulo the
buffer size. -/
def AbstractFifo.finishedWrite (f : AbstractFifo) (numWritten : Int) : AbstractFifo :=
  let newEnd := f.validEnd + numWritten
  let newEnd := if newEnd ≥ f.bufferSize then newEnd - f.bufferSize else newEnd
  { f with validEnd := newEnd }

/-- JUCE `AbstractFifo::prepareToRead`. -/
def AbstractFifo.prepareToRead (f : AbstractFifo) (numWanted : Int) : FifoBlocks :=
  let vs := f.validStart
  let ve := f.validEnd
  let numReady := if ve ≥ vs then ve - vs else f.bufferSize - (vs - ve)
  let numWanted := min numWanted numReady
  if numWanted ≤ 0 then
    { start1 := 0, size1 := 0, start2 := 0, size2 := 0 }
  else
    let blockSize1 := min (f.bufferSize - vs) numWanted
    let numWanted := numWanted - blockSize1
    { start1 := vs, size1 := blockSize1, start2 := 0,
      size2 := if numWanted ≤ 0 then 0 else min numWanted ve }

/-- JUCE `AbstractFifo::finishedRead`: advance the read index modulo the
buffer size. -/
def AbstractFifo.finishedRead (f : AbstractFifo) (numRead : Int) : AbstractFifo :=
  let newStart := f.validStart + numRead
  let newStart := if newStart ≥ f.bufferSize then newStart - f.bufferSize else newStart
  { f with validStart := newStart }

/-- Class `LockFreeQueue<T, Capacity>`: an `AbstractFifo` built with `Capacity`
and a `std::array<T, Capacity>`. -/
structure LockFreeQueue (T : Type) where
  fifo : AbstractFifo
  buffer : List T
deriving DecidableEq, Repr

/-- A freshly constructed queue: `fifo { Capacity }` and a value-initialised
array (`zero` is the value-initialised `T`). -/
def LockFreeQueue.init {T : Type} (zero : T) (capacity : Nat) : LockFreeQueue T :=
  { fifo := AbstractFifo.init capacity, buffer := List.replicate capacity zero }

/-- Member `LockFreeQueue::push`: returns the result flag and the new queue. -/
def LockFreeQueue.push {T : Type} (q : LockFreeQueue T) (item : T) : Bool × LockFreeQueue T :=
  let r := q.fifo.prepareToWrite 1
  if r.size1 = 0 then
    (false, q)
  else
    (true, { fifo := q.fifo.finishedWrite r.size1,
             buffer := q.buffer.set r.start1.toNat item })

/-- Member `LockFreeQueue::pop`: returns the result flag, the (possibly
untouched) output argument and the new queue. -/
def LockFreeQueue.pop {T : Type} (q : LockFreeQueue T) (out : T) : Bool × T × LockFreeQueue T :=
  let r := q.fifo.prepareToRead 1
  if r.size1 = 0 then
    (false, out, q)
  else
    (true, (q.buffer.getD r.start1.toNat out),
      { q with fifo := q.fifo.finishedRead r.size1 })

/-- Member `LockFreeQueue::reset` (`AbstractFifo::reset` zeroes both indices). -/
def LockFreeQueue.reset {T : Type} (q : LockFreeQueue T) : LockFreeQueue T :=
  { q with fifo := { q.fifo with validStart := 0, validEnd := 0 } }

/-- Push a list of items in order, collecting the result flags. -/
def LockFreeQueue.pushAll {T : Type} (q : LockFreeQueue T) : List T → List Bool × LockFreeQueue T
  | [] => ([], q)
  | x :: xs =>
    let r := q.push x
    let rest := LockFreeQueue.pushAll r.2 xs
    (r.1 :: rest.1, rest.2)

/-! ## mixer/AutomationManager.h, mixer/AutomationManager.cpp -/

/-- Struct `AutomationManager::AutomationPoint`. -/
structure AutomationPoint where
  time : ℚ := 0
  value : ℚ := 0
  curve : ℚ := 0
  interpolation : Option String := none
deriving DecidableEq, Repr

/-- Struct `AutomationManager::AutomationLane`. -/
structure AutomationLane where
  parameterId : String := ""
  points : List AutomationPoint := []
  isEnabled : Bool := true
  defaultValue : ℚ := 0
deriving DecidableEq, Repr

/-- The loop of `std::lower_bound` with the comparator of `getValueAtTime`
(`p.time < t`): binary search over the index range `[first, first + len)`. -/
def lowerBoundLoop (points : List AutomationPoint) (t : ℚ) (first len : Nat) : Nat :=
  if 0 < len then
    let half := len / 2
    let middle := first + half
    match points[middle]? with
    | some p =>
      if p.time < t then lowerBoundLoop points t (middle + 1) (len - half - 1)
      else lowerBoundLoop points t first half
    | none => first
  else first
termination_by len
decreasing_by all_goals omega

/-- Call `std::lower_bound (points.begin(), points.end(), time, cmp)`, as the
index of the returned iterator. -/
def lowerBound (points : List AutomationPoint) (t : ℚ) : Nat :=
  lowerBoundLoop points t 0 points.length

/-- The constant `1e-9` guarding the division in `getValueAtTime`. -/
def timeEpsilon : ℚ := 1 / 1000000000

/-- The dead band `0.0001f` around a linear curve shape. -/
def curveThreshold : ℚ := 1 / 10000

/-- The interpolation of `getValueAtTime` between the neighbours `p1`, `p2`.
`powHalf x` stands for the `<cmath>` call `std::pow (x, 0.5)`. -/
def interpolate (powHalf : ℚ → ℚ) (p1 p2 : AutomationPoint) (time : ℚ) : ℚ :=
  let tNorm := (time - p1.time) / max timeEpsilon (p2.time - p1.time)
  let curve := p1.curve
  if curve < -curveThreshold then
    p1.value + (p2.value - p1.value) * powHalf tNorm
  else if curve > curveThreshold then
    p1.value + (p2.value - p1.value) * (tNorm * tNorm)
  else
    p1.value + (p2.value - p1.value) * tNorm

/-- Member `AutomationManager::AutomationLane::getValueAtTime`. -/
def AutomationLane.getValueAtTime (powHalf : ℚ → ℚ) (lane : AutomationLane) (time : ℚ) : ℚ :=
  match lane.points with
  | [] => lane.defaultValue
  | first :: _ =>
    let it := lowerBound lane.points time
    if it = 0 then
      first.value
    else if it = lane.points.length then
      (lane.points.getLast?.getD first).value
    else
      match lane.points[it - 1]?, lane.points[it]? with
      | some p1, some p2 => interpolate powHalf p1 p2 time
      | _, _ => lane.defaultValue

/-- Ascending order by time, as left by `std::sort` with `a.time < b.time`. -/
def SortedByTime (points : List AutomationPoint) : Prop :=
  points.Pairwise (fun a b => a.time ≤ b.time)

instance (points : List AutomationPoint) : Decidable (SortedByTime points) := by
  unfold SortedByTime; infer_instance

/-- A computable instance of `std::pow (x, 0.5)` for running the model on
concrete lanes: exact on squares of rationals, rounded down elsewhere. -/
def powHalfQ (x : ℚ) : ℚ := (Nat.sqrt x.num.toNat : ℚ) / (Nat.sqrt x.den : ℚ)

/-- Two points sharing the same time. -/
def duplicateLane : AutomationLane :=
  { points := [{ time := 1, value := 10 }, { time := 1, value := 20 }] }

/-- A segment whose curve shape is positive but inside the dead band. -/
def shallowCurveLane : AutomationLane :=
  { points := [{ time := 0, value := 0, curve := 1 / 20000 }, { time := 1, value := 1 }] }

/-- A three point lane with an exponential, a logarithmic and a final point. -/
def sampleLane : AutomationLane :=
  { points := [{ time := 1, value := 5, curve := -1 }, { time := 2, value := 7, curve := 1 },
               { time := 4, value := 3 }] }

/-! ## core/Transport.h, core/Transport.cpp -/

/-- Struct `TransportController::TimeInfo`, with its default member values. -/
structure TimeInfo where
  ppqPosition : ℚ := 0
  ppqPositionOfLastBarStart : ℚ := 0
  timeInSeconds : ℚ := 0
  timeInSamples : ℚ := 0
  bpm : ℚ := 120
  timeSigNumerator : Int := 4
  timeSigDenominator : Int := 4
  isPlaying : Bool := false
  isRecording : Bool := false
  isLooping : Bool := false
  hostTimeNs : Int := 0
deriving DecidableEq, Repr

/-- Data members of `TransportController` (the listener list is left out: the
callbacks are external code and hold no transport state). -/
structure TransportController where
  loopStart : ℚ := 0
  loopEnd : ℚ := 0
  currentPositionSamples : ℚ := 0
  playing : Bool := false
  cachedInfo : TimeInfo := {}
deriving DecidableEq, Repr

/-- Truncation of a rational towards zero. -/
def truncate (x : ℚ) : Int := if 0 ≤ x then ⌊x⌋ else ⌈x⌉

/-- The cast `(juce::int64) x` of a double: truncation towards zero when the
result fits a signed 64-bit integer. Outside that range the C++ conversion is
undefined; the x86-64 conversion instruction then yields `INT64_MIN`, which the
model follows. -/
def toInt64 (x : ℚ) : Int :=
  if -9223372036854775808 ≤ truncate x ∧ truncate x ≤ 9223372036854775807 then truncate x
  else -9223372036854775808

/-- Member `TransportController::play`. -/
def TransportController.play (tc : TransportController) : TransportController :=
  { tc with playing := true, cachedInfo := { tc.cachedInfo with isPlaying := true } }

/-- Member `TransportController::stop`. -/
def TransportController.stop (tc : TransportController) : TransportController :=
  { tc with playing := false, cachedInfo := { tc.cachedInfo with isPlaying := false } }

/-- Member `TransportController::record`. -/
def TransportController.record (tc : TransportController) : TransportController :=
  { tc with playing := true, cachedInfo := { tc.cachedInfo with isRecording := true } }

/-- Member `TransportController::setPosition` (`forceJump` is ignored by the
source). -/
def TransportController.setPosition (tc : TransportController) (seconds : ℚ) :
    TransportController :=
  { tc with
    cachedInfo := { tc.cachedInfo with timeInSeconds := seconds, timeInSamples := seconds * 48000 }
    currentPositionSamples := toInt64 (seconds * 48000) }

/-- Member `TransportController::setLoop`. -/
def TransportController.setLoop (tc : TransportController) (start stop : ℚ) :
    TransportController :=
  { tc with loopStart := start, loopEnd := stop,
            cachedInfo := { tc.cachedInfo with isLooping := true } }

/-- Member `TransportController::setTempo`. -/
def TransportController.setTempo (tc : TransportController) (bpm : ℚ) : TransportController :=
  { tc with cachedInfo := { tc.cachedInfo with bpm := bpm } }

/-- Member `TransportController::getTimeInfo`. -/
def TransportController.getTimeInfo (tc : TransportController) : TimeInfo := tc.cachedInfo

/-- Member `TransportController::hiResTimerCallback`: one advance step of the
1 ms timer. -/
def TransportController.hiResTimerCallback (tc : TransportController) : TransportController :=
  if tc.playing = false then tc
  else
    let samplesPerMs : ℚ := 48
    let timeInSamples := tc.cachedInfo.timeInSamples + samplesPerMs
    let timeInSeconds := timeInSamples / 48000
    if tc.cachedInfo.isLooping = true ∧ tc.loopEnd > tc.loopStart ∧ timeInSeconds ≥ tc.loopEnd then
      { tc with
        cachedInfo := { tc.cachedInfo with timeInSeconds := tc.loopStart,
                                           timeInSamples := tc.loopStart * 48000 }
        currentPositionSamples := toInt64 (tc.loopStart * 48000) }
    else
      { tc with
        cachedInfo := { tc.cachedInfo with timeInSeconds := timeInSeconds,
                                           timeInSamples := timeInSamples }
        currentPositionSamples := toInt64 timeInSamples }

/-- A playing transport looping over `[1 s, 2 s)`, 0.1 ms before the loop end:
`setLoop (1, 2)`, `setPosition (1.9999)`, `play ()` on a fresh controller. -/
def nearLoopEnd : TransportController :=
  ((({} : TransportController).setLoop 1 2).setPosition (19999 / 10000)).play

/-- A playing transport looping over `[1 s, 2 s)`, positioned at the loop
start: `setLoop (1, 2)`, `setPosition (1)`, `play ()` on a fresh controller. -/
def atLoopStart : TransportController :=
  ((({} : TransportController).setLoop 1 2).setPosition 1).play

/-- The transport of `atLoopStart` after `k` advance steps inside the loop:
position `48000 + 48 k` samples. -/
def onGrid (k : Nat) : TransportController :=
  { loopStart := 1, loopEnd := 2,
    currentPositionSamples := toInt64 (48000 + 48 * (k : ℚ)),
    playing := true,
    cachedInfo := { timeInSeconds := (48000 + 48 * (k : ℚ)) / 48000,
                    timeInSamples := 48000 + 48 * (k : ℚ),
                    isPlaying := true, isLooping := true } }

/-! ## juce::AudioBuffer -/

/-- The samples of a `juce::AudioBuffer<float>`: one list per channel. -/
abbrev AudioBuffer := List (List ℚ)

/-- Add `v` to the element at index `sample` of one channel. -/
def addAt (v : ℚ) : Nat → List ℚ → List ℚ
  | _, [] => []
  | 0, x :: xs => (x + v) :: xs
  | n + 1, x :: xs => x :: addAt v n xs

/-- JUCE `AudioBuffer::addSample (destChannel, destSample, valueToAdd)`. -/
def AudioBuffer.addSample (buffer : AudioBuffer) (ch sample : Nat) (v : ℚ) : AudioBuffer :=
  buffer.modify (addAt v sample) ch

/-- JUCE `AudioBuffer::clear ()`: every sample of every channel becomes zero. -/
def AudioBuffer.clear (buffer : AudioBuffer) : AudioBuffer :=
  buffer.map (fun channel => channel.map (fun _ => 0))

/-! ## core/Metronome.h, core/Metronome.cpp -/

/-- Data members of `Metronome`, with their default values. -/
structure Metronome where
  sampleRate : ℚ := 48000
  blockSize : Int := 256
  enabled : Bool := false
  levelLin : ℚ := 1 / 10
  bpm : ℚ := 120
  beatsPerBar : Int := 4
  subdivision : Int := 4
  phase : ℚ := 0
deriving DecidableEq, Repr

/-- Member `Metronome::prepare`. -/
def Metronome.prepare (m : Metronome) (newSampleRate : ℚ) (newBlockSize : Int) : Metronome :=
  { m with sampleRate := newSampleRate, blockSize := newBlockSize }

/-- Member `Metronome::setEnabled`. -/
def Metronome.setEnabled (m : Metronome) (isEnabled : Bool) : Metronome :=
  { m with enabled := isEnabled }

/-- Member `Metronome::setBpm`. -/
def Metronome.setBpm (m : Metronome) (newBpm : ℚ) : Metronome :=
  { m with bpm := newBpm }

/-- Member `Metronome::setSubdivision`. -/
def Metronome.setSubdivision (m : Metronome) (beats subdiv : Int) : Metronome :=
  { m with beatsPerBar := beats, subdivision := subdiv }

/-- The local `samplesPerSubdivision` of `Metronome::process`. -/
def Metronome.samplesPerSubdivision (m : Metronome) : ℚ :=
  let secondsPerBeat := 60 / m.bpm
  (secondsPerBeat / (m.subdivision : ℚ)) * m.sampleRate

/-- The inner loop `for (ch = 0; ch < channelCount; ++ch) buffer.addSample (ch, sample, level)`. -/
def addToAllChannels (buffer : AudioBuffer) (sample : Nat) (level : ℚ) : AudioBuffer :=
  (List.range buffer.length).foldl (fun b ch => b.addSample ch sample level) buffer

/-- The sample loop of `Metronome::process`, with `remaining` iterations left and
`sample` the current index; returns the final phase and buffer. -/
def Metronome.processLoop (sps level : ℚ) : Nat → Nat → ℚ → AudioBuffer → ℚ × AudioBuffer
  | 0, _, phase, buffer => (phase, buffer)
  | remaining + 1, sample, phase, buffer =>
    if phase ≥ sps then
      Metronome.processLoop sps level remaining (sample + 1) (phase - sps + 1)
        (addToAllChannels buffer sample level)
    else
      Metronome.processLoop sps level remaining (sample + 1) (phase + 1) buffer

/-- Member `Metronome::process`. -/
def Metronome.process (m : Metronome) (buffer : AudioBuffer) (numSamples : Int) :
    Metronome × AudioBuffer :=
  if m.enabled = false then (m, buffer)
  else
    let r := Metronome.processLoop m.samplesPerSubdivision m.levelLin numSamples.toNat 0
      m.phase buffer
    ({ m with phase := r.1 }, r.2)

/-- The sample indices at which the loop of `Metronome::process` takes the click
branch (the same recursion as `processLoop`, recording the index instead of
writing the buffer). -/
def Metronome.clickLoop (sps : ℚ) : Nat → Nat → ℚ → List Nat
  | 0, _, _ => []
  | remaining + 1, sample, phase =>
    if phase ≥ sps then
      sample :: Metronome.clickLoop sps remaining (sample + 1) (phase - sps + 1)
    else
      Metronome.clickLoop sps remaining (sample + 1) (phase + 1)

/-- The phase left by the loop of `Metronome::process` after `remaining`
iterations (the same recursion as `processLoop`, keeping only the phase). -/
def Metronome.phaseAfter (sps : ℚ) : Nat → ℚ → ℚ
  | 0, phase => phase
  | remaining + 1, phase =>
    if phase ≥ sps then Metronome.phaseAfter sps remaining (phase - sps + 1)
    else Metronome.phaseAfter sps remaining (phase + 1)

/-- The click positions of one `process` call (none when disabled). -/
def Metronome.clicks (m : Metronome) (numSamples : Int) : List Nat :=
  if m.enabled = false then []
  else Metronome.clickLoop m.samplesPerSubdivision numSamples.toNat 0 m.phase

/-- Consecutive `process` calls with the given block sizes, threading the
metronome state (the buffer content does not influence the phase); returns the
final metronome and the block-relative click positions of every block. -/
def Metronome.processBlocks (m : Metronome) : List Nat → Metronome × List (List Nat)
  | [] => (m, [])
  | n :: rest =>
    let m1 := (m.process [] (n : Int)).1
    let r := Metronome.processBlocks m1 rest
    (r.1, m.clicks (n : Int) :: r.2)

/-- An enabled metronome with `bpm = 120`, `subdivision = 4`,
`sampleRate = 48000` and phase 0: a fresh `Metronome` after `setEnabled (true)`. -/
def metronome120 : Metronome := ({} : Metronome).setEnabled true

/-! ## processors/TrackProcessor.h, processors/TrackProcessor.cpp -/

/-- The four parameters of a `TrackProcessor` (current values of `gainParam`,
`panParam`, `muteParam`, `soloParam`). -/
structure TrackProcessor where
  gainParam : ℚ := 1
  panParam : ℚ := 0
  muteParam : Bool := false
  soloParam : Bool := false
deriving DecidableEq, Repr

/-- Member `TrackProcessor::processBlock`. The JUCE DSP objects are parameters:
`pannerProcess pan` is `juce::dsp::Panner` after `setPan (pan)` and
`gainProcess gain` is `juce::dsp::Gain` after `setGainLinear (gain)`. -/
def TrackProcessor.processBlock (pannerProcess gainProcess : ℚ → AudioBuffer → AudioBuffer)
    (tp : TrackProcessor) (buffer : AudioBuffer) : AudioBuffer :=
  if tp.muteParam = true then
    buffer.clear
  else
    gainProcess tp.gainParam (pannerProcess tp.panParam buffer)

/-- A buffer of two channels and two samples. -/
def loudBuffer : AudioBuffer := [[1, -2], [3, 4]]

/-- A muted track with the gain at its maximum and the pan hard left. -/
def mutedTrack : TrackProcessor := { gainParam := 2, panParam := -1, muteParam := true }

/-! ## core/GraphProcessor.h, core/GraphProcessor.cpp, core/AudioEngine.cpp -/

/-- What `juce::AudioProcessorGraph` consults of a node when connecting: its id
and the channel counts and MIDI capabilities of its processor. -/
structure GraphNode where
  nodeID : Nat
  numInputChannels : Int
  numOutputChannels : Int
  acceptsMidi : Bool
  producesMidi : Bool
deriving DecidableEq, Repr

/-- JUCE `AudioProcessorGraph::NodeAndChannel`. -/
structure NodeAndChannel where
  nodeID : Nat
  channelIndex : Int
deriving DecidableEq, Repr

/-- JUCE `AudioProcessorGraph::Connection`. -/
structure Connection where
  source : NodeAndChannel
  destination : NodeAndChannel
deriving DecidableEq, Repr

/-- Class `GraphProcessor` (a `juce::AudioProcessorGraph`): its nodes, its
connections, the id counter of `addNode` and the two I/O nodes. -/
structure GraphProcessor where
  nodes : List GraphNode
  connections : List Connection
  lastNodeID : Nat
  audioInputNode : Nat
  audioOutputNode : Nat
deriving DecidableEq, Repr

/-- JUCE `AudioProcessorGraph::midiChannelIndex`. -/
def midiChannelIndex : Int := 0x1000

/-- JUCE `AudioProcessorGraph::getNodeForId`. -/
def GraphProcessor.getNodeForId (g : GraphProcessor) (id : Nat) : Option GraphNode :=
  g.nodes.find? (fun n => n.nodeID = id)

/-- JUCE `AudioProcessorGraph::isConnected (const Connection&)`. -/
def GraphProcessor.isConnected (g : GraphProcessor) (c : Connection) : Bool :=
  decide (c ∈ g.connections)

/-- JUCE `AudioProcessorGraph::canConnect`: channel indices are non-negative,
the two nodes differ, audio goes to audio and MIDI to MIDI, both nodes exist
with the channel in range, and the connection is not there yet. There is no
reachability test. -/
def GraphProcessor.canConnect (g : GraphProcessor) (c : Connection) : Bool :=
  let sourceIsMIDI := decide (c.source.channelIndex = midiChannelIndex)
  let destIsMIDI := decide (c.destination.channelIndex = midiChannelIndex)
  if c.source.channelIndex < 0 ∨ c.destination.channelIndex < 0
      ∨ c.source.nodeID = c.destination.nodeID ∨ sourceIsMIDI ≠ destIsMIDI then false
  else
    match g.getNodeForId c.source.nodeID, g.getNodeForId c.destination.nodeID with
    | some source, some dest =>
      if (sourceIsMIDI = false ∧ c.source.channelIndex ≥ source.numOutputChannels)
          ∨ (sourceIsMIDI = true ∧ source.producesMidi = false) then false
      else if (destIsMIDI = false ∧ c.destination.channelIndex ≥ dest.numInputChannels)
          ∨ (destIsMIDI = true ∧ dest.acceptsMidi = false) then false
      else !g.isConnected c
    | _, _ => false

/-- JUCE `AudioProcessorGraph::addConnection`: insert the connection when
`canConnect` allows it. -/
def GraphProcessor.addConnection (g : GraphProcessor) (c : Connection) : Bool × GraphProcessor :=
  if g.canConnect c = true then
    (true, { g with connections := g.connections ++ [c] })
  else (false, g)

/-- JUCE `AudioProcessorGraph::addNode` with a default node id: the next id is
handed out. -/
def GraphProcessor.addNode (g : GraphProcessor) (numIn numOut : Int) (acceptsMidi producesMidi : Bool) :
    Nat × GraphProcessor :=
  let id := g.lastNodeID + 1
  (id, { g with lastNodeID := id,
                nodes := g.nodes ++ [{ nodeID := id, numInputChannels := numIn,
                                       numOutputChannels := numOut,
                                       acceptsMidi := acceptsMidi,
                                       producesMidi := producesMidi }] })

/-- Member `GraphProcessor::connectChannels`. -/
def GraphProcessor.connectChannels (g : GraphProcessor) (src dst : Nat)
    (srcChannel dstChannel : Int) : Bool × GraphProcessor :=
  g.addConnection { source := { nodeID := src, channelIndex := srcChannel },
                    destination := { nodeID := dst, channelIndex := dstChannel } }

/-- Constructor `GraphProcessor::GraphProcessor`: the audio input and output
nodes are added; `graphInputs` / `graphOutputs` are the channel counts of the
graph itself, which the I/O processors mirror. -/
def GraphProcessor.init (graphInputs graphOutputs : Int) : GraphProcessor :=
  let g0 : GraphProcessor :=
    { nodes := [], connections := [], lastNodeID := 0, audioInputNode := 0, audioOutputNode := 0 }
  let r1 := g0.addNode 0 graphInputs false false
  let r2 := r1.2.addNode graphOutputs 0 false false
  { r2.2 with audioInputNode := r1.1, audioOutputNode := r2.1 }

/-- Struct `TrackConfig` (the name is not used by the graph). -/
structure TrackConfig where
  numInputs : Int := 2
  numOutputs : Int := 2
deriving DecidableEq, Repr

/-- Member `GraphProcessor::addTrackNode`: add a `TrackProcessor` node and
connect its first two channels to the output node. -/
def GraphProcessor.addTrackNode (g : GraphProcessor) (cfg : TrackConfig) : Nat × GraphProcessor :=
  let r := g.addNode cfg.numInputs cfg.numOutputs true false
  let g1 := (r.2.connectChannels r.1 r.2.audioOutputNode 0 0).2
  let g2 := (g1.connectChannels r.1 g1.audioOutputNode 1 1).2
  (r.1, g2)

/-- The members of `FlamquencyAudioEngine` that the modelled operations use. -/
structure FlamquencyAudioEngine where
  mainGraph : GraphProcessor
  transport : TransportController
  metronome : Metronome
deriving DecidableEq, Repr

/-- Member `FlamquencyAudioEngine::connectNodes`. -/
def FlamquencyAudioEngine.connectNodes (e : FlamquencyAudioEngine) (source dest : Nat)
    (sourceChannel destChannel : Int) : Bool × FlamquencyAudioEngine :=
  let r := e.mainGraph.connectChannels source dest sourceChannel destChannel
  (r.1, { e with mainGraph := r.2 })

/-- Member `FlamquencyAudioEngine::setPosition`. -/
def FlamquencyAudioEngine.setPosition (e : FlamquencyAudioEngine) (seconds : ℚ) :
    FlamquencyAudioEngine :=
  { e with transport := e.transport.setPosition seconds }

/-- There is a connection from node `a` to node `b`. -/
def GraphProcessor.Edge (g : GraphProcessor) (a b : Nat) : Prop :=
  ∃ c ∈ g.connections, c.source.nodeID = a ∧ c.destination.nodeID = b

/-- Node `b` is reachable from node `a` along one or more connections. -/
def GraphProcessor.Reachable (g : GraphProcessor) (a b : Nat) : Prop :=
  Relation.TransGen g.Edge a b

/-- A stereo graph with two tracks (nodes 3 and 4), each connected to the output
node, and track 3 feeding track 4. -/
def chainGraph : GraphProcessor :=
  ((((GraphProcessor.init 2 2).addTrackNode {}).2.addTrackNode {}).2.connectChannels 3 4 0 0).2

/-! ## mixer/AutomationManager: the lane table -/

/-- Insert `p` into a list ordered by time, in front of the first point `q` for
which the comparator `q.time < p.time` of `addPoint` fails. -/
def insertByTime (p : AutomationPoint) : List AutomationPoint → List AutomationPoint
  | [] => [p]
  | q :: qs => if q.time < p.time then q :: insertByTime p qs else p :: q :: qs

/-- The call `std::sort (points.begin (), points.end (), cmp)` with
`cmp (a, b) = a.time < b.time`. The standard fixes the result up to the order of
points with equal times; the model is an insertion sort with that comparator. -/
def sortByTime : List AutomationPoint → List AutomationPoint
  | [] => []
  | p :: ps => insertByTime p (sortByTime ps)

/-- Data member `lanes` of `AutomationManager`: a map from track id to a map
from parameter id to lane (the lock is left out). -/
structure AutomationManager where
  lanes : String → Option (String → Option AutomationLane)

/-- The lane stored for `(trackId, paramId)`, if any. -/
def AutomationManager.lane? (am : AutomationManager) (trackId paramId : String) :
    Option AutomationLane :=
  match am.lanes trackId with
  | none => none
  | some inner => inner paramId

/-- Member `AutomationManager::addPoint`: `lanes[trackId][paramId]` creates the
missing entries with a default lane, then the point is appended and the lane
sorted. -/
def AutomationManager.addPoint (am : AutomationManager) (trackId paramId : String)
    (point : AutomationPoint) : AutomationManager :=
  let inner := (am.lanes trackId).getD (fun _ => none)
  let lane := (inner paramId).getD {}
  let lane1 := { lane with parameterId := paramId,
                           points := sortByTime (lane.points ++ [point]) }
  { lanes := Function.update am.lanes trackId
      (some (Function.update inner paramId (some lane1))) }

/-- Class `juce::Point<float>`. -/
structure Point where
  x : ℚ
  y : ℚ
deriving DecidableEq, Repr

/-- Struct `BezierCurve`. -/
structure BezierCurve where
  p0 : Point
  p1 : Point
  p2 : Point
  p3 : Point
deriving DecidableEq, Repr

/-- The loop of `convertToBezier`: one curve per pair of neighbours `a`, `b`. -/
def bezierSegments : List AutomationPoint → List BezierCurve
  | a :: b :: rest =>
    { p0 := ⟨a.time, a.value⟩,
      p3 := ⟨b.time, b.value⟩,
      p1 := ⟨a.time + (b.time - a.time) * (33 / 100), a.value⟩,
      p2 := ⟨a.time + (b.time - a.time) * (66 / 100), b.value⟩ } :: bezierSegments (b :: rest)
  | _ => []

/-- Member `AutomationManager::convertToBezier` (a `const` member: the manager
itself is not changed). -/
def AutomationManager.convertToBezier (am : AutomationManager) (trackId paramId : String) :
    List BezierCurve :=
  match am.lanes trackId with
  | none => []
  | some inner =>
    match inner paramId with
    | none => []
    | some lane => if lane.points.length < 2 then [] else bezierSegments lane.points

/-- A manager without lanes. -/
def emptyAutomation : AutomationManager := { lanes := fun _ => none }

/-! ## utils/LockFreeQueue.h: repeated pops and the ring contents -/

/-- Pop `n` times in a row, each time with `out` as the output argument;
returns the result flag and output of every pop and the final queue. -/
def LockFreeQueue.popN {T : Type} (q : LockFreeQueue T) (out : T) :
    Nat → List (Bool × T) × LockFreeQueue T
  | 0 => ([], q)
  | n + 1 =>
    let r := q.pop out
    let rest := LockFreeQueue.popN r.2.2 out n
    ((r.1, r.2.1) :: rest.1, rest.2)

/-- Ring index of the `i`-th stored item when reading starts at `s` in a ring
of `c` slots. -/
def ringIndex (c s i : Nat) : Nat := if s + i < c then s + i else s + i - c

/-- The queue is a well-formed ring of `c` slots holding exactly the items `xs`,
oldest first: both indices are inside the ring, the write index is `xs.length`
slots after the read index, and the slots in between hold `xs`. -/
def LockFreeQueue.Holds {T : Type} (q : LockFreeQueue T) (xs : List T) : Prop :=
  ∃ c s : Nat, q.fifo.bufferSize = (c : Int) ∧ q.buffer.length = c ∧
    q.fifo.validStart = (s : Int) ∧ s < c ∧ xs.length < c ∧
    q.fifo.validEnd = (ringIndex c s xs.length : Int) ∧
    ∀ i, i < xs.length → q.buffer[ringIndex c s i]? = xs[i]?

/-! ## mixer/OfflineRenderer.h, mixer/OfflineRenderer.cpp -/

/-- Struct `OfflineRenderer::Progress`. -/
structure Progress where
  progress : ℚ := 0
  currentStage : String := ""
  estimatedTimeRemaining : ℚ := 0
deriving DecidableEq, Repr

/-- Data members of `OfflineRenderer` used by `run`, and the trace of the
`renderStem` / `renderMaster` calls made so far (`renderedStems`,
`masterRenders`): both functions are empty in the source, the trace records
that they were called. -/
structure OfflineRenderer where
  shouldCancel : Bool := false
  currentProgress : ℚ := 0
  isStems : Bool := false
  stemIds : List String := []
  renderedStems : List String := []
  masterRenders : Nat := 0
deriving DecidableEq, Repr

/-- Member `OfflineRenderer::renderStem` (an empty body; the call is traced). -/
def OfflineRenderer.renderStem (r : OfflineRenderer) (trackId : String) : OfflineRenderer :=
  { r with renderedStems := r.renderedStems ++ [trackId] }

/-- Member `OfflineRenderer::renderMaster` (an empty body; the call is traced). -/
def OfflineRenderer.renderMaster (r : OfflineRenderer) : OfflineRenderer :=
  { r with masterRenders := r.masterRenders + 1 }

/-- Member `OfflineRenderer::cancel`. -/
def OfflineRenderer.cancel (r : OfflineRenderer) : OfflineRenderer :=
  { r with shouldCancel := true }

/-- Member `OfflineRenderer::getProgress`. -/
def OfflineRenderer.getProgress (r : OfflineRenderer) : Progress :=
  { progress := r.currentProgress, currentStage := "rendering", estimatedTimeRemaining := 0 }

/-- The stems loop of `OfflineRenderer::run`, from index `i` with the ids
`remaining` still to do. `cancelSeen i` says whether `cancel ()` has been called
on the other thread by the time iteration `i` loads `shouldCancel`. -/
def OfflineRenderer.stemLoop (cancelSeen : Nat → Bool) (total : Nat) :
    Nat → List String → OfflineRenderer → OfflineRenderer
  | _, [], r => r
  | i, trackId :: remaining, r =>
    if cancelSeen i = true then { r with shouldCancel := true }
    else
      OfflineRenderer.stemLoop cancelSeen total (i + 1) remaining
        { (r.renderStem trackId) with currentProgress := ((i : ℚ) + 1) / (total : ℚ) }

/-- Member `OfflineRenderer::run`. -/
def OfflineRenderer.run (cancelSeen : Nat → Bool) (r : OfflineRenderer) : OfflineRenderer :=
  let r0 := { r with shouldCancel := false, currentProgress := 0 }
  if r0.isStems = true then
    OfflineRenderer.stemLoop cancelSeen r0.stemIds.length 0 r0.stemIds r0
  else
    { r0.renderMaster with currentProgress := 1 }

/-- Member `OfflineRenderer::renderStems`, followed by the `run` of the thread
it starts. -/
def OfflineRenderer.renderStems (cancelSeen : Nat → Bool) (r : OfflineRenderer)
    (stemTrackIds : List String) : OfflineRenderer :=
  OfflineRenderer.run cancelSeen { r with isStems := true, stemIds := stemTrackIds }

/-- The `cancel ()` call is first seen by the check of iteration `k`. -/
def cancelFrom (k : Nat) : Nat → Bool := fun i => decide (k ≤ i)

/-- A manager holding `sampleLane` as the `gain` lane of track `drums`. -/
def sampleAutomation : AutomationManager :=
  { lanes := fun t =>
      if t = "drums" then some (fun p => if p = "gain" then some sampleLane else none)
      else none }

end Flamquency

/-! # Verified properties -/

namespace Flamquency

/-! ### Binary search -/

theorem lowerBoundLoop_partition (pre post : List AutomationPoint) (t : ℚ)
    (hpre : ∀ r ∈ pre, r.time < t) (hpost : ∀ r ∈ post, t ≤ r.time) :
    ∀ (len first : Nat), first ≤ pre.length → pre.length ≤ first + len →
      first + len ≤ (pre ++ post).length →
      lowerBoundLoop (pre ++ post) t first len = pre.length := by
  intro len
  induction len using Nat.strong_induction_on with
  | _ len ih =>
    intro first h1 h2 h3
    rw [lowerBoundLoop]
    by_cases hlen : 0 < len
    · simp only [hlen, if_true]
      have hmid : first + len / 2 < (pre ++ post).length := by omega
      rw [List.getElem?_eq_getElem hmid]
      simp only
      by_cases hlt : ((pre ++ post)[first + len / 2]).time < t
      · simp only [hlt, if_true]
        have hin : first + len / 2 < pre.length := by
          by_contra hge
          push_neg at hge
          have hmem : (pre ++ post)[first + len / 2] ∈ post := by
            rw [List.getElem_append_right hge]
            exact List.getElem_mem _
          exact absurd hlt (not_lt.mpr (hpost _ hmem))
        exact ih (len - len / 2 - 1) (by omega) (first + len / 2 + 1) (by omega) (by omega)
          (by omega)
      · simp only [hlt, if_false]
        have hin : pre.length ≤ first + len / 2 := by
          by_contra hge
          push_neg at hge
          have hmem : (pre ++ post)[first + len / 2] ∈ pre := by
            rw [List.getElem_append_left hge]
            exact List.getElem_mem _
          exact hlt (hpre _ hmem)
        exact ih (len / 2) (by omega) first h1 hin (by omega)
    · simp only [hlen, if_false]
      omega

theorem lowerBound_partition (pre post : List AutomationPoint) (t : ℚ)
    (hpre : ∀ r ∈ pre, r.time < t) (hpost : ∀ r ∈ post, t ≤ r.time) :
    lowerBound (pre ++ post) t = pre.length := by
  unfold lowerBound
  exact lowerBoundLoop_partition pre post t hpre hpost _ 0 (Nat.zero_le _)
    (by simp) (by simp)

/-! ### Shape of `getValueAtTime` once the iterator is known -/

theorem getValueAtTime_begin (powHalf : ℚ → ℚ) (lane : AutomationLane)
    (first : AutomationPoint) (rest : List AutomationPoint) (t : ℚ)
    (hpts : lane.points = first :: rest) (hlb : lowerBound lane.points t = 0) :
    lane.getValueAtTime powHalf t = first.value := by
  unfold AutomationLane.getValueAtTime
  rw [hlb]
  simp [hpts]

theorem getValueAtTime_end (powHalf : ℚ → ℚ) (lane : AutomationLane)
    (init : List AutomationPoint) (last : AutomationPoint) (t : ℚ)
    (hpts : lane.points = init ++ [last])
    (hlb : lowerBound lane.points t = lane.points.length) :
    lane.getValueAtTime powHalf t = last.value := by
  unfold AutomationLane.getValueAtTime
  rw [hlb]
  cases init with
  | nil => simp [hpts]
  | cons a as =>
    have hl : (a :: (as ++ [last])).getLast? = some last := by
      rw [← List.cons_append, List.getLast?_concat]
    simp [hpts, hl]

theorem getValueAtTime_interior (powHalf : ℚ → ℚ) (lane : AutomationLane)
    (pre post : List AutomationPoint) (p1 p2 : AutomationPoint) (t : ℚ)
    (hpts : lane.points = pre ++ p1 :: p2 :: post)
    (hlb : lowerBound lane.points t = pre.length + 1) :
    lane.getValueAtTime powHalf t = interpolate powHalf p1 p2 t := by
  unfold AutomationLane.getValueAtTime
  rw [hlb]
  have h1 : (pre ++ p1 :: p2 :: post)[pre.length]? = some p1 := by
    rw [List.getElem?_append_right (le_refl _)]
    simp
  have h2 : (pre ++ p1 :: p2 :: post)[pre.length + 1]? = some p2 := by
    rw [List.getElem?_append_right (by omega)]
    simp
  cases pre with
  | nil =>
    simp only [hpts, List.nil_append, List.length_nil, List.length_cons] at h1 h2 ⊢
    simp [h1, h2]
  | cons a as =>
    simp only [hpts, List.cons_append, List.length_cons] at h1 h2 ⊢
    simp [h1, h2]

/-! ### Sorted lanes -/

theorem sorted_split_before (pre post : List AutomationPoint) (p : AutomationPoint)
    (hs : SortedByTime (pre ++ p :: post)) : ∀ r ∈ pre, r.time ≤ p.time := by
  intro r hr
  unfold SortedByTime at hs
  exact (List.pairwise_append.mp hs).2.2 r hr p (List.mem_cons_self _ _)

theorem sorted_split_after (pre post : List AutomationPoint) (p : AutomationPoint)
    (hs : SortedByTime (pre ++ p :: post)) : ∀ r ∈ post, p.time ≤ r.time := by
  intro r hr
  unfold SortedByTime at hs
  exact (List.pairwise_cons.mp (List.pairwise_append.mp hs).2.1).1 r hr

/-- At or before the first point's time the first point's value is returned. -/
theorem getValueAtTime_le_first (powHalf : ℚ → ℚ) (lane : AutomationLane)
    (first : AutomationPoint) (rest : List AutomationPoint) (t : ℚ)
    (hpts : lane.points = first :: rest) (hs : SortedByTime lane.points)
    (ht : t ≤ first.time) :
    lane.getValueAtTime powHalf t = first.value := by
  apply getValueAtTime_begin powHalf lane first rest t hpts
  rw [hpts] at hs ⊢
  have hall : ∀ r ∈ first :: rest, t ≤ r.time := by
    intro r hr
    rcases List.mem_cons.mp hr with rfl | hr
    · exact ht
    · have := sorted_split_after [] rest first hs r hr
      linarith
  exact lowerBound_partition [] (first :: rest) t (by simp) hall

/-! ### Automation lanes: knots and clamping -/

/-- C3 (as stated, refuted): in `duplicateLane` both points have time 1; at
`t = 1`, which is not before the last point's time, the first point's value 10
is returned, not the last point's value 20. -/
theorem getValueAtTime_clamp_right_counterexample :
    SortedByTime duplicateLane.points ∧
    duplicateLane.points.getLast? = some ⟨1, 20, 0, none⟩ ∧
    (⟨1, 20, 0, none⟩ : AutomationPoint).time ≤ 1 ∧
    duplicateLane.getValueAtTime powHalfQ 1 = 10 ∧
    duplicateLane.getValueAtTime powHalfQ 1 ≠ (⟨1, 20, 0, none⟩ : AutomationPoint).value := by
  have hlb : lowerBound duplicateLane.points 1 = 0 :=
    lowerBound_partition [] [⟨1, 10, 0, none⟩, ⟨1, 20, 0, none⟩] _ (by simp) (by simp)
  have hv : duplicateLane.getValueAtTime powHalfQ 1 = 10 :=
    getValueAtTime_begin powHalfQ duplicateLane ⟨1, 10, 0, none⟩ [⟨1, 20, 0, none⟩] 1 rfl hlb
  refine ⟨?_, rfl, le_refl _, hv, ?_⟩
  · norm_num [SortedByTime, duplicateLane]
  · rw [hv]; norm_num

/-- C3 (amended): in a non-empty lane sorted by time, `getValueAtTime t` returns
the last point's value for every `t` strictly after the last point's time, and
for every `t` at all when the lane has a single point. -/
theorem getValueAtTime_clamp_right (powHalf : ℚ → ℚ) (lane : AutomationLane)
    (init : List AutomationPoint) (last : AutomationPoint) (t : ℚ)
    (hpts : lane.points = init ++ [last]) (hs : SortedByTime lane.points)
    (ht : last.time < t ∨ init = []) :
    lane.getValueAtTime powHalf t = last.value := by
  have hafter : last.time < t → lane.getValueAtTime powHalf t = last.value := by
    intro ht
    apply getValueAtTime_end powHalf lane init last t hpts
    have hall : ∀ r ∈ init ++ [last], r.time < t := by
      intro r hr
      rcases List.mem_append.mp hr with hr | hr
      · rw [hpts] at hs
        have := sorted_split_before init [] last hs r hr
        linarith
      · rw [List.mem_singleton.mp hr]; exact ht
    have hlb := lowerBound_partition (init ++ [last]) [] t hall (by simp)
    rw [hpts]
    simpa using hlb
  rcases ht with ht | hinit
  · exact hafter ht
  · subst hinit
    by_cases hle : t ≤ last.time
    · exact getValueAtTime_le_first powHalf lane last [] t (by simpa using hpts) hs hle
    · exact hafter (not_le.mp hle)

/-- Witness for C3: `sampleLane` evaluated after its last point. -/
theorem getValueAtTime_clamp_right_witness :
    SortedByTime sampleLane.points ∧ sampleLane.getValueAtTime powHalfQ 9 = 3 := by
  have hs : SortedByTime sampleLane.points := by
    norm_num [SortedByTime, sampleLane]
  exact ⟨hs, getValueAtTime_clamp_right powHalfQ sampleLane
    [⟨1, 5, -1, none⟩, ⟨2, 7, 1, none⟩] ⟨4, 3, 0, none⟩ 9 rfl hs (Or.inl (by norm_num))⟩

/-- C4: in a non-empty lane sorted by time, `getValueAtTime t` returns the first
point's value for every `t` not after the first point's time (clamp-left). -/
theorem getValueAtTime_clamp_left (powHalf : ℚ → ℚ) (lane : AutomationLane)
    (first : AutomationPoint) (rest : List AutomationPoint) (t : ℚ)
    (hpts : lane.points = first :: rest) (hs : SortedByTime lane.points)
    (ht : t ≤ first.time) :
    lane.getValueAtTime powHalf t = first.value := by
  apply getValueAtTime_begin powHalf lane first rest t hpts
  rw [hpts] at hs ⊢
  have hall : ∀ r ∈ first :: rest, t ≤ r.time := by
    intro r hr
    rcases List.mem_cons.mp hr with rfl | hr
    · exact ht
    · have := sorted_split_after [] rest first hs r hr
      linarith
  exact lowerBound_partition [] (first :: rest) t (by simp) hall

/-- Witness for C4: `sampleLane` evaluated at its first point's time. -/
theorem getValueAtTime_clamp_left_witness :
    SortedByTime sampleLane.points ∧ sampleLane.getValueAtTime powHalfQ 1 = 5 := by
  have hs : SortedByTime sampleLane.points := by
    norm_num [SortedByTime, sampleLane]
  exact ⟨hs, getValueAtTime_clamp_left powHalfQ sampleLane ⟨1, 5, -1, none⟩
    [⟨2, 7, 1, none⟩, ⟨4, 3, 0, none⟩] 1 rfl hs (le_refl _)⟩

/-! ### Automation lanes: interpolation -/

/-- A time strictly after the head and not after the last point falls into a
segment: the list splits around two neighbours `p1`, `p2` with everything up to
`p1` strictly before `t` and `t ≤ p2.time`. -/
theorem exists_segment (t : ℚ) : ∀ (pts : List AutomationPoint) (a last : AutomationPoint),
    (a :: pts).getLast? = some last → a.time < t → t ≤ last.time →
    ∃ pre p1 p2 post, a :: pts = pre ++ p1 :: p2 :: post ∧
      (∀ r ∈ pre ++ [p1], r.time < t) ∧ t ≤ p2.time := by
  intro pts
  induction pts with
  | nil =>
    intro a last hlast ha ht
    simp at hlast
    subst hlast
    exact absurd ha (not_lt.mpr ht)
  | cons b rest ih =>
    intro a last hlast ha ht
    by_cases hb : t ≤ b.time
    · exact ⟨[], a, b, rest, rfl, by simpa using ha, hb⟩
    · push_neg at hb
      have hlast1 : (b :: rest).getLast? = some last := by
        simpa [List.getLast?_cons_cons] using hlast
      obtain ⟨pre, p1, p2, post, hsplit, hbefore, hafter⟩ := ih b last hlast1 hb ht
      refine ⟨a :: pre, p1, p2, post, by rw [hsplit]; rfl, ?_, hafter⟩
      intro r hr
      rcases List.mem_cons.mp hr with rfl | hr
      · exact ha
      · exact hbefore r hr

/-- C5 (as stated, refuted): the first point of `shallowCurveLane` has the
positive curve shape `0.00005`; halfway through the segment the value is the
linear `1/2`, not `v1 + (v2 - v1) * f^2 = 1/4`. -/
theorem getValueAtTime_shape_counterexample :
    SortedByTime shallowCurveLane.points ∧
    (0 : ℚ) < (⟨0, 0, 1 / 20000, none⟩ : AutomationPoint).curve ∧
    shallowCurveLane.getValueAtTime powHalfQ (1 / 2) = 1 / 2 ∧
    shallowCurveLane.getValueAtTime powHalfQ (1 / 2) ≠
      0 + (1 - 0) * ((1 / 2 - 0) / max timeEpsilon (1 - 0)) ^ 2 := by
  have hlb : lowerBound shallowCurveLane.points (1 / 2) = 1 :=
    lowerBound_partition [⟨0, 0, 1 / 20000, none⟩] [⟨1, 1, 0, none⟩] _
      (by norm_num) (by norm_num)
  have hv : shallowCurveLane.getValueAtTime powHalfQ (1 / 2) = 1 / 2 := by
    rw [getValueAtTime_interior powHalfQ shallowCurveLane [] [] ⟨0, 0, 1 / 20000, none⟩
      ⟨1, 1, 0, none⟩ _ rfl hlb]
    norm_num [interpolate, timeEpsilon, curveThreshold]
  refine ⟨?_, by norm_num, hv, ?_⟩
  · norm_num [SortedByTime, shallowCurveLane]
  · rw [hv]; norm_num [timeEpsilon]

/-- C5 (amended): in a lane sorted by time, for `t` strictly after the first
point's time and not after the last point's time, with `p2` the first point
whose time is `≥ t`, `p1` its predecessor and
`f = (t - p1.time) / max 1e-9 (p2.time - p1.time)`, `getValueAtTime t` is
`v1 + (v2 - v1) * pow (f, 0.5)` when `p1.curve < -0.0001`,
`v1 + (v2 - v1) * f^2` when `p1.curve > 0.0001`, and the linear
`v1 + (v2 - v1) * f` for every shape within `[-0.0001, 0.0001]`. -/
theorem getValueAtTime_interpolates (powHalf : ℚ → ℚ) (lane : AutomationLane)
    (first last : AutomationPoint) (rest : List AutomationPoint) (t : ℚ)
    (hpts : lane.points = first :: rest) (hlast : lane.points.getLast? = some last)
    (hs : SortedByTime lane.points) (h1 : first.time < t) (h2 : t ≤ last.time) :
    ∃ pre p1 p2 post, lane.points = pre ++ p1 :: p2 :: post ∧
      (∀ r ∈ pre ++ [p1], r.time < t) ∧ t ≤ p2.time ∧
      lane.getValueAtTime powHalf t =
        if p1.curve < -(1 / 10000) then
          p1.value + (p2.value - p1.value) *
            powHalf ((t - p1.time) / max (1 / 1000000000) (p2.time - p1.time))
        else if p1.curve > 1 / 10000 then
          p1.value + (p2.value - p1.value) *
            ((t - p1.time) / max (1 / 1000000000) (p2.time - p1.time)) ^ 2
        else
          p1.value + (p2.value - p1.value) *
            ((t - p1.time) / max (1 / 1000000000) (p2.time - p1.time)) := by
  rw [hpts] at hlast
  obtain ⟨pre, p1, p2, post, hsplit, hbefore, hafter⟩ :=
    exists_segment t rest first last hlast h1 h2
  rw [← hpts] at hsplit
  refine ⟨pre, p1, p2, post, hsplit, hbefore, hafter, ?_⟩
  rw [hsplit] at hs
  have hs1 : SortedByTime ((pre ++ [p1]) ++ p2 :: post) := by
    simpa [List.append_assoc] using hs
  have hpost : ∀ r ∈ p2 :: post, t ≤ r.time := by
    intro r hr
    rcases List.mem_cons.mp hr with rfl | hr
    · exact hafter
    · have := sorted_split_after (pre ++ [p1]) post p2 hs1 r hr
      linarith
  have hlb := lowerBound_partition (pre ++ [p1]) (p2 :: post) t hbefore hpost
  rw [getValueAtTime_interior powHalf lane pre post p1 p2 t hsplit
    (by rw [hsplit]; simpa [List.append_assoc] using hlb)]
  simp only [interpolate, timeEpsilon, curveThreshold, pow_two]

/-- Witness for C5: `sampleLane` at `t = 3`, inside its second segment. -/
theorem getValueAtTime_interpolates_witness :
    SortedByTime sampleLane.points ∧ (1 : ℚ) < 3 ∧ (3 : ℚ) ≤ 4 ∧
    ∃ pre p1 p2 post, sampleLane.points = pre ++ p1 :: p2 :: post ∧
      (∀ r ∈ pre ++ [p1], r.time < 3) ∧ 3 ≤ p2.time ∧
      sampleLane.getValueAtTime powHalfQ 3 =
        if p1.curve < -(1 / 10000) then
          p1.value + (p2.value - p1.value) *
            powHalfQ ((3 - p1.time) / max (1 / 1000000000) (p2.time - p1.time))
        else if p1.curve > 1 / 10000 then
          p1.value + (p2.value - p1.value) *
            ((3 - p1.time) / max (1 / 1000000000) (p2.time - p1.time)) ^ 2
        else
          p1.value + (p2.value - p1.value) *
            ((3 - p1.time) / max (1 / 1000000000) (p2.time - p1.time)) := by
  have hs : SortedByTime sampleLane.points := by
    norm_num [SortedByTime, sampleLane]
  exact ⟨hs, by norm_num, by norm_num,
    getValueAtTime_interpolates powHalfQ sampleLane ⟨1, 5, -1, none⟩ ⟨4, 3, 0, none⟩
      [⟨2, 7, 1, none⟩, ⟨4, 3, 0, none⟩] 3 rfl rfl hs (by norm_num) (by norm_num)⟩

/-! ### Command queue -/

/-- C1 (code evaluated at the claim's input): on an empty queue of capacity 4
the first three pushes return true and the FOURTH push already returns false,
because the `AbstractFifo` built with 4 keeps one slot unused; after one pop
(which yields the first item) the next push returns true again. -/
theorem push_capacity_four :
    ((LockFreeQueue.init (0 : Int) 4).pushAll [10, 20, 30, 40, 50]).1
      = [true, true, true, false, false] ∧
    (((LockFreeQueue.init (0 : Int) 4).pushAll [10, 20, 30]).2.pop 0).1 = true ∧
    (((LockFreeQueue.init (0 : Int) 4).pushAll [10, 20, 30]).2.pop 0).2.1 = 10 ∧
    ((((LockFreeQueue.init (0 : Int) 4).pushAll [10, 20, 30]).2.pop 0).2.2.push 40).1
      = true := by
  decide

/-! ### Transport: loop range -/

theorem callback_stopped (tc : TransportController) (h : tc.playing = false) :
    tc.hiResTimerCallback = tc := by
  simp [TransportController.hiResTimerCallback, h]

theorem callback_no_wrap (tc : TransportController) (hplay : tc.playing = true)
    (h : ¬ (tc.cachedInfo.isLooping = true ∧ tc.loopEnd > tc.loopStart ∧
      (tc.cachedInfo.timeInSamples + 48) / 48000 ≥ tc.loopEnd)) :
    tc.hiResTimerCallback =
      { tc with
        cachedInfo := { tc.cachedInfo with
          timeInSeconds := (tc.cachedInfo.timeInSamples + 48) / 48000,
          timeInSamples := tc.cachedInfo.timeInSamples + 48 }
        currentPositionSamples := toInt64 (tc.cachedInfo.timeInSamples + 48) } := by
  unfold TransportController.hiResTimerCallback
  simp only [hplay, Bool.true_eq_false, if_false]
  rw [if_neg h]

theorem callback_wrap (tc : TransportController) (hplay : tc.playing = true)
    (h : tc.cachedInfo.isLooping = true ∧ tc.loopEnd > tc.loopStart ∧
      (tc.cachedInfo.timeInSamples + 48) / 48000 ≥ tc.loopEnd) :
    tc.hiResTimerCallback =
      { tc with
        cachedInfo := { tc.cachedInfo with timeInSeconds := tc.loopStart,
                                           timeInSamples := tc.loopStart * 48000 }
        currentPositionSamples := toInt64 (tc.loopStart * 48000) } := by
  unfold TransportController.hiResTimerCallback
  simp only [hplay, Bool.true_eq_false, if_false]
  rw [if_pos h]

/-- With a reversed or empty range stored, advance steps never wrap. -/
theorem iterate_inert_loop (tc : TransportController) (h : tc.loopEnd ≤ tc.loopStart) (n : Nat) :
    (TransportController.hiResTimerCallback^[n] tc).loopStart = tc.loopStart ∧
    (TransportController.hiResTimerCallback^[n] tc).loopEnd = tc.loopEnd ∧
    (TransportController.hiResTimerCallback^[n] tc).playing = tc.playing ∧
    (TransportController.hiResTimerCallback^[n] tc).cachedInfo.timeInSamples =
      tc.cachedInfo.timeInSamples + (if tc.playing = true then 48 * (n : ℚ) else 0) := by
  induction n with
  | zero => simp
  | succ n ih =>
    rw [Function.iterate_succ_apply']
    obtain ⟨h1, h2, h3, h4⟩ := ih
    generalize TransportController.hiResTimerCallback^[n] tc = s at h1 h2 h3 h4
    by_cases hp : tc.playing = true
    · have hsp : s.playing = true := by rw [h3, hp]
      rw [callback_no_wrap s hsp (by
        rintro ⟨_, hgt, _⟩
        rw [h1, h2] at hgt
        exact absurd hgt (not_lt.mpr h))]
      simp only [hp, if_true] at h4 ⊢
      refine ⟨h1, h2, hsp, ?_⟩
      rw [h4]; push_cast; ring
    · have hsp : s.playing = false := by
        rw [h3]; simpa using hp
      rw [callback_stopped s hsp]
      refine ⟨h1, h2, h3, ?_⟩
      rw [h4, if_neg hp, if_neg hp]

/-- C6 (as stated, refuted): on `nearLoopEnd` (loop `[1 s, 2 s)`) the call
`setLoop (2, 1)` overwrites the range, and the next advance step, which would
have wrapped to 1 s, no longer wraps. -/
theorem setLoop_reversed_counterexample :
    (1 : ℚ) ≤ 2 ∧
    nearLoopEnd.loopStart = 1 ∧ nearLoopEnd.loopEnd = 2 ∧
    (nearLoopEnd.setLoop 2 1).loopStart = 2 ∧ (nearLoopEnd.setLoop 2 1).loopEnd = 1 ∧
    nearLoopEnd.hiResTimerCallback.cachedInfo.timeInSeconds = 1 ∧
    (nearLoopEnd.setLoop 2 1).hiResTimerCallback.cachedInfo.timeInSeconds = 20009 / 10000 := by
  refine ⟨by norm_num, rfl, rfl, rfl, rfl, ?_, ?_⟩
  · rw [callback_wrap nearLoopEnd rfl (by
      norm_num [nearLoopEnd, TransportController.play, TransportController.setPosition,
        TransportController.setLoop])]
    rfl
  · rw [callback_no_wrap (nearLoopEnd.setLoop 2 1) rfl (by
      norm_num [nearLoopEnd, TransportController.play, TransportController.setPosition,
        TransportController.setLoop])]
    norm_num [nearLoopEnd, TransportController.play, TransportController.setPosition,
        TransportController.setLoop]

/-- C6 (amended): `setLoop (start, end)` with `end ≤ start` is not rejected: it
stores `loopStart = start`, `loopEnd = end` and sets the looping flag, leaving
the play state and the position untouched; the stored range is inert, i.e. no
later advance step wraps: after `n` steps the range is still stored and
`timeInSamples` is the old value plus `48 n` when playing, unchanged when not. -/
theorem setLoop_reversed_range (tc : TransportController) (start stop : ℚ)
    (h : stop ≤ start) (n : Nat) :
    (tc.setLoop start stop).loopStart = start ∧
    (tc.setLoop start stop).loopEnd = stop ∧
    (tc.setLoop start stop).cachedInfo = { tc.cachedInfo with isLooping := true } ∧
    (tc.setLoop start stop).playing = tc.playing ∧
    (tc.setLoop start stop).currentPositionSamples = tc.currentPositionSamples ∧
    (TransportController.hiResTimerCallback^[n] (tc.setLoop start stop)).loopStart = start ∧
    (TransportController.hiResTimerCallback^[n] (tc.setLoop start stop)).loopEnd = stop ∧
    (TransportController.hiResTimerCallback^[n] (tc.setLoop start stop)).cachedInfo.timeInSamples
      = tc.cachedInfo.timeInSamples + (if tc.playing = true then 48 * (n : ℚ) else 0) := by
  obtain ⟨h1, h2, _, h4⟩ := iterate_inert_loop (tc.setLoop start stop) h n
  exact ⟨rfl, rfl, rfl, rfl, rfl, h1, h2, h4⟩

/-- Witness for C6: `setLoop (2, 1)` on `nearLoopEnd`, followed by 3 steps. -/
theorem setLoop_reversed_range_witness :
    (1 : ℚ) ≤ 2 ∧
    (nearLoopEnd.setLoop 2 1).loopStart = 2 ∧
    (TransportController.hiResTimerCallback^[3] (nearLoopEnd.setLoop 2 1)).cachedInfo.timeInSamples
      = nearLoopEnd.cachedInfo.timeInSamples
        + (if nearLoopEnd.playing = true then 48 * ((3 : Nat) : ℚ) else 0) :=
  ⟨by norm_num, (setLoop_reversed_range nearLoopEnd 2 1 (by norm_num) 3).1,
    (setLoop_reversed_range nearLoopEnd 2 1 (by norm_num) 3).2.2.2.2.2.2.2⟩

/-! ### Transport: loop wrap -/

theorem atLoopStart_eq_onGrid : atLoopStart = onGrid 0 := by
  simp [atLoopStart, onGrid, TransportController.play, TransportController.setPosition,
    TransportController.setLoop]

theorem callback_onGrid (k : Nat) (hk : k < 999) :
    (onGrid k).hiResTimerCallback = onGrid (k + 1) := by
  have hq : ((k : ℚ)) < 999 := by exact_mod_cast hk
  rw [callback_no_wrap (onGrid k) rfl (by
    rintro ⟨_, _, hge⟩
    simp only [onGrid] at hge
    rw [ge_iff_le, le_div_iff₀ (by norm_num)] at hge
    linarith)]
  simp only [onGrid, TransportController.mk.injEq, TimeInfo.mk.injEq, true_and, and_true]
  push_cast
  refine ⟨?_, ?_, ?_⟩ <;> ring_nf

theorem callback_onGrid_last : (onGrid 999).hiResTimerCallback = onGrid 0 := by
  rw [callback_wrap (onGrid 999) rfl (by
    refine ⟨rfl, ?_, ?_⟩ <;> norm_num [onGrid])]
  simp [onGrid]

theorem iterate_onGrid (k : Nat) (hk : k ≤ 999) :
    TransportController.hiResTimerCallback^[k] (onGrid 0) = onGrid k := by
  induction k with
  | zero => rfl
  | succ k ih =>
    rw [Function.iterate_succ_apply', ih (by omega), callback_onGrid k (by omega)]

theorem iterate_cycle : TransportController.hiResTimerCallback^[1000] (onGrid 0) = onGrid 0 := by
  rw [Function.iterate_succ_apply', iterate_onGrid 999 (le_refl _), callback_onGrid_last]

theorem iterate_cycles (n k : Nat) (hk : k < 1000) :
    TransportController.hiResTimerCallback^[1000 * n + k] atLoopStart = onGrid k := by
  rw [atLoopStart_eq_onGrid, Nat.add_comm, Function.iterate_add_apply, Function.iterate_mul,
    Function.iterate_fixed iterate_cycle n]
  exact iterate_onGrid k (by omega)

/-- C7 (as stated, refuted): on `nearLoopEnd` the advance step moves the
position to `p = 2.0009 s ≥ loopEnd = 2 s`; the resulting position is exactly
`loopStart = 1 s`, not `loopStart + (p - loopEnd) = 1.0009 s`. -/
theorem loop_wrap_counterexample :
    nearLoopEnd.playing = true ∧ nearLoopEnd.cachedInfo.isLooping = true ∧
    nearLoopEnd.loopStart < nearLoopEnd.loopEnd ∧
    nearLoopEnd.loopEnd ≤ (nearLoopEnd.cachedInfo.timeInSamples + 48) / 48000 ∧
    nearLoopEnd.hiResTimerCallback.cachedInfo.timeInSeconds = 1 ∧
    nearLoopEnd.loopStart
      + ((nearLoopEnd.cachedInfo.timeInSamples + 48) / 48000 - nearLoopEnd.loopEnd)
      = 10009 / 10000 := by
  have hcross : nearLoopEnd.loopEnd ≤ (nearLoopEnd.cachedInfo.timeInSamples + 48) / 48000 := by
    norm_num [nearLoopEnd, TransportController.play, TransportController.setPosition,
      TransportController.setLoop]
  have hrange : nearLoopEnd.loopStart < nearLoopEnd.loopEnd := by
    norm_num [nearLoopEnd, TransportController.play, TransportController.setPosition,
      TransportController.setLoop]
  refine ⟨rfl, rfl, hrange, hcross, ?_, ?_⟩
  · rw [callback_wrap nearLoopEnd rfl ⟨rfl, hrange, hcross⟩]
    rfl
  · norm_num [nearLoopEnd, TransportController.play, TransportController.setPosition,
      TransportController.setLoop]

/-- C7 (amended): for a playing transport with an active loop
(`loopEnd > loopStart`), an advance step that moves the position to
`p ≥ loopEnd` leaves the position at exactly `loopStart` (`timeInSeconds =
loopStart`, `timeInSamples = loopStart * 48000`); the overshoot is dropped.
With the loop `[1 s, 2 s)` entered at 1 s each cycle takes exactly 1000 advance
steps: after `n` full cycles and `k < 1000` further steps the position is
`48000 + 48 k` samples for every `n`, so no drift accumulates. -/
theorem loop_wrap_exact (tc : TransportController) (hplay : tc.playing = true)
    (hloop : tc.cachedInfo.isLooping = true) (hrange : tc.loopStart < tc.loopEnd)
    (hcross : tc.loopEnd ≤ (tc.cachedInfo.timeInSamples + 48) / 48000)
    (n k : Nat) (hk : k < 1000) :
    tc.hiResTimerCallback.cachedInfo.timeInSeconds = tc.loopStart ∧
    tc.hiResTimerCallback.cachedInfo.timeInSamples = tc.loopStart * 48000 ∧
    tc.hiResTimerCallback.currentPositionSamples = toInt64 (tc.loopStart * 48000) ∧
    (TransportController.hiResTimerCallback^[1000 * n + k] atLoopStart).cachedInfo.timeInSamples
      = 48000 + 48 * (k : ℚ) ∧
    (TransportController.hiResTimerCallback^[1000 * n + k] atLoopStart).cachedInfo.timeInSeconds
      = (48000 + 48 * (k : ℚ)) / 48000 := by
  rw [callback_wrap tc hplay ⟨hloop, hrange, hcross⟩, iterate_cycles n k hk]
  exact ⟨rfl, rfl, rfl, rfl, rfl⟩

/-- Witness for C7: the wrap of `nearLoopEnd`, and `atLoopStart` after 100
full loop cycles. -/
theorem loop_wrap_exact_witness :
    nearLoopEnd.hiResTimerCallback.cachedInfo.timeInSeconds = nearLoopEnd.loopStart ∧
    (TransportController.hiResTimerCallback^[1000 * 100 + 0] atLoopStart).cachedInfo.timeInSamples
      = 48000 + 48 * ((0 : Nat) : ℚ) := by
  have h := loop_wrap_exact nearLoopEnd rfl rfl
    (by norm_num [nearLoopEnd, TransportController.play, TransportController.setPosition,
      TransportController.setLoop])
    (by norm_num [nearLoopEnd, TransportController.play, TransportController.setPosition,
      TransportController.setLoop])
    100 0 (by norm_num)
  exact ⟨h.1, h.2.2.2.1⟩

/-! ### Metronome -/

theorem processLoop_fst (sps level : ℚ) (n : Nat) : ∀ (sample : Nat) (phase : ℚ)
    (buffer : AudioBuffer),
    (Metronome.processLoop sps level n sample phase buffer).1
      = Metronome.phaseAfter sps n phase := by
  induction n with
  | zero => intro sample phase buffer; rfl
  | succ n ih =>
    intro sample phase buffer
    simp only [Metronome.processLoop, Metronome.phaseAfter]
    split_ifs
    · exact ih _ _ _
    · exact ih _ _ _

theorem processLoop_snd (sps level : ℚ) (n : Nat) : ∀ (sample : Nat) (phase : ℚ)
    (buffer : AudioBuffer),
    (Metronome.processLoop sps level n sample phase buffer).2
      = (Metronome.clickLoop sps n sample phase).foldl
          (fun b i => addToAllChannels b i level) buffer := by
  induction n with
  | zero => intro sample phase buffer; rfl
  | succ n ih =>
    intro sample phase buffer
    simp only [Metronome.processLoop, Metronome.clickLoop]
    split_ifs
    · rw [ih]; rfl
    · exact ih _ _ _

theorem phaseAfter_add (sps : ℚ) (a b : Nat) : ∀ (phase : ℚ),
    Metronome.phaseAfter sps (a + b) phase
      = Metronome.phaseAfter sps b (Metronome.phaseAfter sps a phase) := by
  induction a with
  | zero => intro phase; simp [Metronome.phaseAfter]
  | succ a ih =>
    intro phase
    rw [Nat.add_right_comm]
    simp only [Metronome.phaseAfter]
    split_ifs
    · exact ih _
    · exact ih _

theorem clickLoop_add (sps : ℚ) (a b : Nat) : ∀ (sample : Nat) (phase : ℚ),
    Metronome.clickLoop sps (a + b) sample phase
      = Metronome.clickLoop sps a sample phase
        ++ Metronome.clickLoop sps b (sample + a) (Metronome.phaseAfter sps a phase) := by
  induction a with
  | zero => intro sample phase; simp [Metronome.clickLoop, Metronome.phaseAfter]
  | succ a ih =>
    intro sample phase
    rw [Nat.add_right_comm]
    simp only [Metronome.clickLoop, Metronome.phaseAfter]
    split_ifs
    · rw [ih, List.cons_append]
      congr 3
      omega
    · rw [ih]
      congr 2
      omega

theorem clickLoop_length (sps : ℚ) (n : Nat) : ∀ (sample sample1 : Nat) (phase : ℚ),
    (Metronome.clickLoop sps n sample phase).length
      = (Metronome.clickLoop sps n sample1 phase).length := by
  induction n with
  | zero => intro sample sample1 phase; rfl
  | succ n ih =>
    intro sample sample1 phase
    simp only [Metronome.clickLoop]
    split_ifs
    · simp only [List.length_cons]
      rw [ih (sample + 1) (sample1 + 1)]
    · exact ih _ _ _

theorem phaseAfter_quiet (sps : ℚ) (n : Nat) : ∀ (phase : ℚ), phase + n ≤ sps →
    Metronome.phaseAfter sps n phase = phase + n := by
  induction n with
  | zero => intro phase _; simp [Metronome.phaseAfter]
  | succ n ih =>
    intro phase h
    push_cast at h
    have hn : (0 : ℚ) ≤ n := Nat.cast_nonneg n
    have hlt : ¬ phase ≥ sps := by
      rw [not_le]; linarith
    simp only [Metronome.phaseAfter, hlt, if_false]
    rw [ih (phase + 1) (by linarith)]
    push_cast; ring

theorem clickLoop_quiet (sps : ℚ) (n : Nat) : ∀ (sample : Nat) (phase : ℚ), phase + n ≤ sps →
    Metronome.clickLoop sps n sample phase = [] := by
  induction n with
  | zero => intro sample phase _; rfl
  | succ n ih =>
    intro sample phase h
    push_cast at h
    have hn : (0 : ℚ) ≤ n := Nat.cast_nonneg n
    have hlt : ¬ phase ≥ sps := by
      rw [not_le]; linarith
    simp only [Metronome.clickLoop, hlt, if_false]
    exact ih (sample + 1) (phase + 1) (by linarith)

theorem clickLoop_succ_click (sps : ℚ) (n sample : Nat) (phase : ℚ) (h : sps ≤ phase) :
    Metronome.clickLoop sps (n + 1) sample phase
      = sample :: Metronome.clickLoop sps n (sample + 1) (phase - sps + 1) := by
  simp [Metronome.clickLoop, h]

theorem phaseAfter_succ_click (sps : ℚ) (n : Nat) (phase : ℚ) (h : sps ≤ phase) :
    Metronome.phaseAfter sps (n + 1) phase
      = Metronome.phaseAfter sps n (phase - sps + 1) := by
  simp [Metronome.phaseAfter, h]

/-- One full period at 6000 samples per subdivision, entered with the phase
at 6000: a click on the first sample, then 5999 quiet samples. -/
theorem period_6000 (sample : Nat) :
    Metronome.clickLoop 6000 6000 sample 6000 = [sample] ∧
    Metronome.phaseAfter 6000 6000 6000 = 6000 := by
  constructor
  · show Metronome.clickLoop 6000 (5999 + 1) sample 6000 = [sample]
    rw [clickLoop_succ_click 6000 5999 sample 6000 (le_refl _),
      clickLoop_quiet 6000 5999 (sample + 1) _ (by norm_num)]
  · show Metronome.phaseAfter 6000 (5999 + 1) 6000 = 6000
    rw [phaseAfter_succ_click 6000 5999 6000 (le_refl _),
      phaseAfter_quiet 6000 5999 _ (by norm_num)]
    norm_num

theorem samplesPerSubdivision_120 : metronome120.samplesPerSubdivision = 6000 := by
  norm_num [Metronome.samplesPerSubdivision, metronome120, Metronome.setEnabled]

theorem clickLoop_24000 :
    Metronome.clickLoop 6000 24000 0 0 = [6000, 12000, 18000] ∧
    Metronome.phaseAfter 6000 24000 0 = 6000 := by
  have hq := phaseAfter_quiet 6000 6000 0 (by norm_num)
  have hq1 : Metronome.phaseAfter 6000 6000 0 = 6000 := by rw [hq]; norm_num
  have hp := (period_6000 0).2
  constructor
  · show Metronome.clickLoop 6000 (6000 + (6000 + (6000 + 6000))) 0 0 = _
    rw [clickLoop_add 6000 6000 (6000 + (6000 + 6000)) 0 0,
      clickLoop_quiet 6000 6000 0 0 (by norm_num), hq1,
      clickLoop_add 6000 6000 (6000 + 6000) (0 + 6000) 6000, (period_6000 (0 + 6000)).1, hp,
      clickLoop_add 6000 6000 6000 (0 + 6000 + 6000) 6000, (period_6000 (0 + 6000 + 6000)).1, hp,
      (period_6000 (0 + 6000 + 6000 + 6000)).1]
    rfl
  · show Metronome.phaseAfter 6000 (6000 + (6000 + (6000 + 6000))) 0 = _
    rw [phaseAfter_add 6000 6000 (6000 + (6000 + 6000)) 0, hq1,
      phaseAfter_add 6000 6000 (6000 + 6000) 6000, hp,
      phaseAfter_add 6000 6000 6000 6000, hp, hp]

theorem process_enabled (m : Metronome) (buffer : AudioBuffer) (n : Nat)
    (h : m.enabled = true) :
    m.process buffer (n : Int)
      = ({ m with phase := Metronome.phaseAfter m.samplesPerSubdivision n m.phase },
         (Metronome.clickLoop m.samplesPerSubdivision n 0 m.phase).foldl
           (fun b i => addToAllChannels b i m.levelLin) buffer) := by
  unfold Metronome.process
  simp only [h, Bool.true_eq_false, if_false, Int.toNat_ofNat]
  rw [processLoop_fst, processLoop_snd]

theorem processBlocks_total (sizes : List Nat) : ∀ (m : Metronome), m.enabled = true →
    (Metronome.processBlocks m sizes).1
      = { m with phase := Metronome.phaseAfter m.samplesPerSubdivision sizes.sum m.phase } ∧
    ((Metronome.processBlocks m sizes).2.map List.length).sum
      = (Metronome.clickLoop m.samplesPerSubdivision sizes.sum 0 m.phase).length := by
  induction sizes with
  | nil => intro m _; exact ⟨rfl, rfl⟩
  | cons n rest ih =>
    intro m hm
    simp only [Metronome.processBlocks, List.sum_cons, List.map_cons]
    rw [process_enabled m [] n hm]
    obtain ⟨h1, h2⟩ := ih { m with phase := Metronome.phaseAfter m.samplesPerSubdivision n m.phase } hm
    constructor
    · rw [h1, phaseAfter_add]
      rfl
    · rw [h2, clickLoop_add, List.length_append,
        clickLoop_length m.samplesPerSubdivision rest.sum (0 + n) 0]
      simp only [Metronome.clicks, hm, Bool.true_eq_false, if_false, Int.toNat_ofNat]
      rfl

theorem clicks_enabled (m : Metronome) (n : Nat) (h : m.enabled = true) :
    m.clicks (n : Int) = Metronome.clickLoop m.samplesPerSubdivision n 0 m.phase := by
  unfold Metronome.clicks
  simp only [h, Bool.true_eq_false, if_false, Int.toNat_ofNat]

theorem clicks_24000 : metronome120.clicks 24000 = [6000, 12000, 18000] := by
  have h := clicks_enabled metronome120 24000 rfl
  rw [samplesPerSubdivision_120, show metronome120.phase = 0 from rfl, clickLoop_24000.1] at h
  simpa only [Nat.cast_ofNat] using h

/-- C8 (as stated, refuted): from phase 0 at `bpm = 120`, `subdivision = 4`,
`sampleRate = 48000`, a block of 24000 samples holds 3 clicks (samples 6000,
12000 and 18000), not 4. -/
theorem metronome_click_count_counterexample :
    metronome120.enabled = true ∧ metronome120.phase = 0 ∧
    metronome120.clicks 24000 = [6000, 12000, 18000] ∧
    (metronome120.clicks 24000).length ≠ 4 := by
  refine ⟨rfl, rfl, clicks_24000, ?_⟩
  rw [clicks_24000]; decide

/-- C8 (amended): for an enabled metronome at phase 0 with `bpm = 120`,
`subdivision = 4`, `sampleRate = 48000`, `samplesPerSubdivision` is exactly
6000; one `process` call over 24000 samples adds the level to every channel at
exactly the samples 6000, 12000 and 18000 (3 clicks, 6000 samples apart) and
leaves the phase at 6000, so the fourth click falls on stream sample 24000, the
first sample after the block; cutting the 24000 samples into several blocks
gives the same final phase and the same total of 3 clicks. -/
theorem metronome_click_interval (buffer : AudioBuffer) (sizes : List Nat)
    (hsum : sizes.sum = 24000) :
    metronome120.samplesPerSubdivision = 6000 ∧
    metronome120.clicks 24000 = [6000, 12000, 18000] ∧
    metronome120.process buffer 24000
      = ({ metronome120 with phase := 6000 },
         addToAllChannels (addToAllChannels (addToAllChannels buffer 6000 (1 / 10))
           12000 (1 / 10)) 18000 (1 / 10)) ∧
    ({ metronome120 with phase := 6000 } : Metronome).clicks 1 = [0] ∧
    (Metronome.processBlocks metronome120 sizes).1 = { metronome120 with phase := 6000 } ∧
    ((Metronome.processBlocks metronome120 sizes).2.map List.length).sum = 3 := by
  have hsps := samplesPerSubdivision_120
  have hen : metronome120.enabled = true := rfl
  have hph : metronome120.phase = 0 := rfl
  have hlv : metronome120.levelLin = 1 / 10 := rfl
  obtain ⟨hc, hp⟩ := clickLoop_24000
  obtain ⟨hb1, hb2⟩ := processBlocks_total sizes metronome120 hen
  rw [hsum, hsps, hph] at hb1 hb2
  refine ⟨hsps, clicks_24000, ?_, ?_, ?_, ?_⟩
  · have h := process_enabled metronome120 buffer 24000 hen
    rw [hsps, hph, hc, hp, hlv] at h
    simpa only [Nat.cast_ofNat, List.foldl_cons, List.foldl_nil] using h
  · have h := clicks_enabled { metronome120 with phase := 6000 } 1 rfl
    have hs : ({ metronome120 with phase := 6000 } : Metronome).samplesPerSubdivision = 6000 :=
      hsps
    rw [hs, clickLoop_succ_click 6000 0 0 _ (le_refl _)] at h
    simpa only [Nat.cast_one, Metronome.clickLoop] using h
  · rw [hb1, hp]
  · rw [hb2, hc]; rfl

/-- Witness for C8: the 24000 samples cut into blocks of 10000 and 14000. -/
theorem metronome_click_interval_witness :
    [10000, 14000].sum = 24000 ∧
    ((Metronome.processBlocks metronome120 [10000, 14000]).2.map List.length).sum = 3 :=
  ⟨by decide, (metronome_click_interval [[0, 0], [0, 0]] [10000, 14000] (by decide)).2.2.2.2.2⟩

/-! ### Track processor -/

/-- C9: with mute set, `processBlock` leaves every sample of every channel
exactly 0, whatever the input buffer, gain, pan and solo (and whatever the
panner and gain stages would compute); the channel layout is kept. -/
theorem processBlock_muted (pannerProcess gainProcess : ℚ → AudioBuffer → AudioBuffer)
    (tp : TrackProcessor) (buffer : AudioBuffer) (hmute : tp.muteParam = true) :
    tp.processBlock pannerProcess gainProcess buffer = buffer.clear ∧
    (tp.processBlock pannerProcess gainProcess buffer).map List.length
      = buffer.map List.length ∧
    ∀ channel ∈ tp.processBlock pannerProcess gainProcess buffer, ∀ x ∈ channel, x = 0 := by
  have h : tp.processBlock pannerProcess gainProcess buffer = buffer.clear := by
    simp [TrackProcessor.processBlock, hmute]
  rw [h]
  refine ⟨rfl, ?_, ?_⟩
  · simp [AudioBuffer.clear, Function.comp_def]
  · intro channel hch x hx
    simp only [AudioBuffer.clear, List.mem_map] at hch
    obtain ⟨c0, _, rfl⟩ := hch
    simp only [List.mem_map] at hx
    obtain ⟨_, _, rfl⟩ := hx
    rfl

/-- Witness for C9: `mutedTrack` (gain 2, pan -1) on `loudBuffer`. -/
theorem processBlock_muted_witness :
    mutedTrack.muteParam = true ∧
    mutedTrack.processBlock (fun _ b => b) (fun g b => b.map (List.map (· * g))) loudBuffer
      = loudBuffer.clear :=
  ⟨rfl, (processBlock_muted (fun _ b => b) (fun g b => b.map (List.map (· * g)))
    mutedTrack loudBuffer rfl).1⟩

/-! ### Graph connections -/

/-- C10 (as stated, refuted): in `chainGraph` track 3 feeds track 4, so the
source 4 of the requested connection `(4, 0) -> (3, 0)` is reachable from its
destination 3; `connectChannels` nevertheless returns true and adds the
connection, after which node 3 reaches itself. -/
theorem connectChannels_cycle_counterexample :
    chainGraph.Reachable 3 4 ∧
    (chainGraph.connectChannels 4 3 0 0).1 = true ∧
    (chainGraph.connectChannels 4 3 0 0).2.connections
      = chainGraph.connections ++ [⟨⟨4, 0⟩, ⟨3, 0⟩⟩] ∧
    (chainGraph.connectChannels 4 3 0 0).2.Reachable 3 3 := by
  have h34 : chainGraph.Edge 3 4 := ⟨⟨⟨3, 0⟩, ⟨4, 0⟩⟩, by decide, rfl, rfl⟩
  have h34' : (chainGraph.connectChannels 4 3 0 0).2.Edge 3 4 :=
    ⟨⟨⟨3, 0⟩, ⟨4, 0⟩⟩, by decide, rfl, rfl⟩
  have h43' : (chainGraph.connectChannels 4 3 0 0).2.Edge 4 3 :=
    ⟨⟨⟨4, 0⟩, ⟨3, 0⟩⟩, by decide, rfl, rfl⟩
  exact ⟨Relation.TransGen.single h34, by decide, by decide,
    Relation.TransGen.tail (Relation.TransGen.single h34') h43'⟩

theorem canConnect_eq_false_iff (g : GraphProcessor) (src dst : Nat) (sc dc : Int) :
    g.canConnect ⟨⟨src, sc⟩, ⟨dst, dc⟩⟩ = false ↔
      (sc < 0 ∨ dc < 0 ∨ src = dst ∨ ¬ (sc = 4096 ↔ dc = 4096)
      ∨ (∀ n ∈ g.nodes, n.nodeID ≠ src) ∨ (∀ n ∈ g.nodes, n.nodeID ≠ dst)
      ∨ (∃ n, g.nodes.find? (fun n => n.nodeID = src) = some n ∧
          ((sc ≠ 4096 ∧ n.numOutputChannels ≤ sc) ∨ (sc = 4096 ∧ n.producesMidi = false)))
      ∨ (∃ n, g.nodes.find? (fun n => n.nodeID = dst) = some n ∧
          ((dc ≠ 4096 ∧ n.numInputChannels ≤ dc) ∨ (dc = 4096 ∧ n.acceptsMidi = false)))
      ∨ (⟨⟨src, sc⟩, ⟨dst, dc⟩⟩ : Connection) ∈ g.connections) := by
  have hnone : ∀ id, g.nodes.find? (fun n => decide (n.nodeID = id)) = none ↔
      ∀ n ∈ g.nodes, n.nodeID ≠ id := by
    intro id
    simp [List.find?_eq_none]
  have hsome : ∀ id n, g.nodes.find? (fun n => decide (n.nodeID = id)) = some n →
      ¬ ∀ m ∈ g.nodes, m.nodeID ≠ id := by
    intro id n h hall
    rw [← hnone] at hall
    rw [hall] at h
    exact absurd h (by simp)
  unfold GraphProcessor.canConnect GraphProcessor.getNodeForId GraphProcessor.isConnected
    midiChannelIndex
  simp only
  by_cases h1 : sc < 0 ∨ dc < 0 ∨ src = dst ∨ decide (sc = 4096) ≠ decide (dc = 4096)
  · rw [if_pos h1]
    simp only [true_iff]
    rcases h1 with h | h | h | h
    · exact Or.inl h
    · exact Or.inr (Or.inl h)
    · exact Or.inr (Or.inr (Or.inl h))
    · refine Or.inr (Or.inr (Or.inr (Or.inl ?_)))
      intro hiff
      apply h
      exact decide_eq_decide.mpr hiff
  · rw [if_neg h1]
    push_neg at h1
    obtain ⟨h1a, h1b, h1c, h1d⟩ := h1
    have hmidi : (sc = 4096 ↔ dc = 4096) := by
      by_cases hsc : sc = 4096 <;> by_cases hdc : dc = 4096 <;> simp_all
    cases hs : g.nodes.find? (fun n => decide (n.nodeID = src)) with
    | none =>
      simp only [true_iff]
      exact Or.inr (Or.inr (Or.inr (Or.inr (Or.inl ((hnone src).mp hs)))))
    | some source =>
      cases hd : g.nodes.find? (fun n => decide (n.nodeID = dst)) with
      | none =>
        simp only [true_iff]
        exact Or.inr (Or.inr (Or.inr (Or.inr (Or.inr (Or.inl ((hnone dst).mp hd))))))
      | some dest =>
        have hns := hsome src source hs
        have hnd := hsome dst dest hd
        simp only [Option.some.injEq, exists_eq_left']
        split_ifs with hA hB
        · simp only [true_iff]
          refine Or.inr (Or.inr (Or.inr (Or.inr (Or.inr (Or.inr (Or.inl ?_))))))
          simpa using hA
        · simp only [true_iff]
          refine Or.inr (Or.inr (Or.inr (Or.inr (Or.inr (Or.inr (Or.inr (Or.inl ?_)))))))
          simpa using hB
        · have hA' : ¬ ((sc ≠ 4096 ∧ source.numOutputChannels ≤ sc) ∨
              (sc = 4096 ∧ source.producesMidi = false)) := by simpa using hA
          have hB' : ¬ ((dc ≠ 4096 ∧ dest.numInputChannels ≤ dc) ∨
              (dc = 4096 ∧ dest.acceptsMidi = false)) := by simpa using hB
          constructor
          · intro hcon
            refine Or.inr (Or.inr (Or.inr (Or.inr (Or.inr (Or.inr (Or.inr (Or.inr ?_)))))))
            simpa using hcon
          · intro hall
            rcases hall with h | h | h | h | h | h | h | h | h
            · exact absurd h (not_lt.mpr h1a)
            · exact absurd h (not_lt.mpr h1b)
            · exact absurd h h1c
            · exact absurd hmidi h
            · exact absurd h hns
            · exact absurd h hnd
            · exact absurd h hA'
            · exact absurd h hB'
            · simpa using h

/-- C10 (amended): `connectChannels` / `connectNodes` perform no reachability
test. They return false, leaving the graph unchanged, exactly when a channel
index is negative, `src = dst`, exactly one of the two channel indices is the
MIDI index `0x1000`, a node id is unknown, an audio channel index is not below
the source's output or the destination's input channel count, a MIDI
connection meets a source that produces no MIDI or a destination that accepts
none, or the same connection is already present. In every other case they
return true and append the connection, also when `src` is reachable from
`dst`. A graph without self-connections stays without self-connections. -/
theorem connectChannels_verdict (e : FlamquencyAudioEngine) (src dst : Nat)
    (srcChannel dstChannel : Int) :
    ((e.mainGraph.connectChannels src dst srcChannel dstChannel).1 = false ↔
      (srcChannel < 0 ∨ dstChannel < 0 ∨ src = dst
      ∨ ¬ (srcChannel = 4096 ↔ dstChannel = 4096)
      ∨ (∀ n ∈ e.mainGraph.nodes, n.nodeID ≠ src)
      ∨ (∀ n ∈ e.mainGraph.nodes, n.nodeID ≠ dst)
      ∨ (∃ n, e.mainGraph.nodes.find? (fun n => n.nodeID = src) = some n ∧
          ((srcChannel ≠ 4096 ∧ n.numOutputChannels ≤ srcChannel)
            ∨ (srcChannel = 4096 ∧ n.producesMidi = false)))
      ∨ (∃ n, e.mainGraph.nodes.find? (fun n => n.nodeID = dst) = some n ∧
          ((dstChannel ≠ 4096 ∧ n.numInputChannels ≤ dstChannel)
            ∨ (dstChannel = 4096 ∧ n.acceptsMidi = false)))
      ∨ (⟨⟨src, srcChannel⟩, ⟨dst, dstChannel⟩⟩ : Connection) ∈ e.mainGraph.connections)) ∧
    (e.connectNodes src dst srcChannel dstChannel).1
      = (e.mainGraph.connectChannels src dst srcChannel dstChannel).1 ∧
    (e.connectNodes src dst srcChannel dstChannel).2.mainGraph
      = (e.mainGraph.connectChannels src dst srcChannel dstChannel).2 ∧
    ((e.mainGraph.connectChannels src dst srcChannel dstChannel).1 = false →
      (e.mainGraph.connectChannels src dst srcChannel dstChannel).2 = e.mainGraph) ∧
    ((e.mainGraph.connectChannels src dst srcChannel dstChannel).1 = true →
      (e.mainGraph.connectChannels src dst srcChannel dstChannel).2
        = { e.mainGraph with
            connections := e.mainGraph.connections ++ [⟨⟨src, srcChannel⟩, ⟨dst, dstChannel⟩⟩] }) ∧
    ((∀ a, ¬ e.mainGraph.Edge a a) →
      ∀ a, ¬ (e.mainGraph.connectChannels src dst srcChannel dstChannel).2.Edge a a) := by
  have hchar := canConnect_eq_false_iff e.mainGraph src dst srcChannel dstChannel
  have hself : src = dst →
      e.mainGraph.canConnect ⟨⟨src, srcChannel⟩, ⟨dst, dstChannel⟩⟩ = false := by
    intro h
    exact hchar.mpr (Or.inr (Or.inr (Or.inl h)))
  unfold FlamquencyAudioEngine.connectNodes GraphProcessor.connectChannels
    GraphProcessor.addConnection
  by_cases hc : e.mainGraph.canConnect ⟨⟨src, srcChannel⟩, ⟨dst, dstChannel⟩⟩ = true
  · simp only [hc, if_true]
    refine ⟨?_, trivial, trivial, by simp, by simp, ?_⟩
    · constructor
      · intro h; exact absurd h (by simp)
      · intro h
        rw [hchar.mpr h] at hc
        exact absurd hc (by simp)
    · intro hno a ⟨c, hcmem, h1, h2⟩
      rcases List.mem_append.mp hcmem with hmem | hmem
      · exact hno a ⟨c, hmem, h1, h2⟩
      · rw [List.mem_singleton.mp hmem] at h1 h2
        simp only at h1 h2
        rw [hself (h1.trans h2.symm)] at hc
        exact absurd hc (by simp)
  · have hf : e.mainGraph.canConnect ⟨⟨src, srcChannel⟩, ⟨dst, dstChannel⟩⟩ = false := by
      simpa using hc
    simp only [hf, Bool.false_eq_true, if_false]
    exact ⟨⟨fun _ => hchar.mp hf, fun _ => trivial⟩, trivial, trivial, by simp, by simp,
      fun hno => hno⟩

/-! ### Transport: position and state flags -/

/-- C11 (as stated, refuted): `setPosition (-1)` on a fresh controller leaves
`timeInSeconds = -1` and `timeInSamples = -48000`, not the clamped
`max (0, -1) = 0`. -/
theorem setPosition_negative_counterexample :
    (({} : TransportController).setPosition (-1)).cachedInfo.timeInSeconds = -1 ∧
    (({} : TransportController).setPosition (-1)).cachedInfo.timeInSamples = -48000 ∧
    (({} : TransportController).setPosition (-1)).currentPositionSamples = -48000 ∧
    (({} : TransportController).setPosition (-1)).cachedInfo.timeInSeconds ≠ max 0 (-1) ∧
    ¬ (0 ≤ (({} : TransportController).setPosition (-1)).cachedInfo.timeInSamples) := by
  have hceil : ⌈(-48000 : ℚ)⌉ = -48000 := by
    have h : (-48000 : ℚ) = ((-48000 : ℤ) : ℚ) := by norm_num
    rw [h, Int.ceil_intCast]
  have htr : truncate (-48000) = -48000 := by
    norm_num [truncate, hceil]
  refine ⟨rfl, ?_, ?_, ?_, ?_⟩
  · norm_num [TransportController.setPosition]
  · norm_num [TransportController.setPosition, toInt64, htr]
  · norm_num [TransportController.setPosition]
  · norm_num [TransportController.setPosition]

/-- C11 (amended): in every transport state (stopped, playing or recording)
`setPosition (seconds)` stores the argument unclamped: `timeInSeconds =
seconds` and `timeInSamples = seconds * 48000`, flags and loop range untouched;
while the truncated sample position fits a signed 64-bit integer,
`currentPositionSamples` is that truncation towards zero;
`FlamquencyAudioEngine::setPosition` forwards to it. The stored position is
non-negative, and equal to `max (0, seconds)`, exactly when `seconds ≥ 0`. -/
theorem setPosition_stores (e : FlamquencyAudioEngine) (tc : TransportController)
    (seconds : ℚ) :
    (tc.setPosition seconds).cachedInfo.timeInSeconds = seconds ∧
    (tc.setPosition seconds).cachedInfo.timeInSamples = seconds * 48000 ∧
    (-9223372036854775808 ≤ (if 0 ≤ seconds * 48000 then ⌊seconds * 48000⌋
          else ⌈seconds * 48000⌉) ∧
      (if 0 ≤ seconds * 48000 then ⌊seconds * 48000⌋ else ⌈seconds * 48000⌉)
        ≤ 9223372036854775807 →
      (tc.setPosition seconds).currentPositionSamples
        = (((if 0 ≤ seconds * 48000 then ⌊seconds * 48000⌋ else ⌈seconds * 48000⌉ : Int)) : ℚ)) ∧
    (tc.setPosition seconds).playing = tc.playing ∧
    (tc.setPosition seconds).cachedInfo.isPlaying = tc.cachedInfo.isPlaying ∧
    (tc.setPosition seconds).cachedInfo.isRecording = tc.cachedInfo.isRecording ∧
    (tc.setPosition seconds).loopStart = tc.loopStart ∧
    (tc.setPosition seconds).loopEnd = tc.loopEnd ∧
    (e.setPosition seconds).transport = e.transport.setPosition seconds ∧
    (0 ≤ (tc.setPosition seconds).cachedInfo.timeInSeconds ↔ 0 ≤ seconds) ∧
    (0 ≤ (tc.setPosition seconds).cachedInfo.timeInSamples ↔ 0 ≤ seconds) ∧
    ((tc.setPosition seconds).cachedInfo.timeInSeconds = max 0 seconds ↔ 0 ≤ seconds) := by
  refine ⟨rfl, rfl, ?_, rfl, rfl, rfl, rfl, rfl, rfl, Iff.rfl, ?_, ?_⟩
  · intro hrange
    show ((toInt64 (seconds * 48000) : Int) : ℚ) = _
    unfold toInt64 truncate
    rw [if_pos hrange]
  · show 0 ≤ seconds * 48000 ↔ 0 ≤ seconds
    constructor <;> intro h <;> linarith
  · show seconds = max 0 seconds ↔ 0 ≤ seconds
    constructor
    · intro h; rw [h]; exact le_max_left _ _
    · intro h; exact (max_eq_right h).symm

/-- C12: `play ()` and `stop ()` leave the position (`timeInSeconds`,
`timeInSamples`, `currentPositionSamples`), the tempo and the loop range
unchanged; `play ()` makes the transport playing; after `stop ()` an advance
step changes nothing. -/
theorem play_stop_keep_position (tc : TransportController) :
    tc.play.cachedInfo.timeInSeconds = tc.cachedInfo.timeInSeconds ∧
    tc.play.cachedInfo.timeInSamples = tc.cachedInfo.timeInSamples ∧
    tc.play.currentPositionSamples = tc.currentPositionSamples ∧
    tc.play.cachedInfo.bpm = tc.cachedInfo.bpm ∧
    tc.play.loopStart = tc.loopStart ∧ tc.play.loopEnd = tc.loopEnd ∧
    tc.play.cachedInfo.isLooping = tc.cachedInfo.isLooping ∧
    tc.play.playing = true ∧ tc.play.getTimeInfo.isPlaying = true ∧
    tc.stop.cachedInfo.timeInSeconds = tc.cachedInfo.timeInSeconds ∧
    tc.stop.cachedInfo.timeInSamples = tc.cachedInfo.timeInSamples ∧
    tc.stop.currentPositionSamples = tc.currentPositionSamples ∧
    tc.stop.cachedInfo.bpm = tc.cachedInfo.bpm ∧
    tc.stop.loopStart = tc.loopStart ∧ tc.stop.loopEnd = tc.loopEnd ∧
    tc.stop.cachedInfo.isLooping = tc.cachedInfo.isLooping ∧
    tc.stop.playing = false ∧ tc.stop.getTimeInfo.isPlaying = false ∧
    tc.stop.hiResTimerCallback = tc.stop := by
  refine ⟨rfl, rfl, rfl, rfl, rfl, rfl, rfl, rfl, rfl, rfl, rfl, rfl, rfl, rfl, rfl, rfl,
    rfl, rfl, callback_stopped tc.stop rfl⟩

/-- C13 (code evaluated at the failing input): after `record ()` on a fresh
controller the internal `playing` flag is true but the snapshot of
`getTimeInfo` has `isRecording` true and `isPlaying` false; the same snapshot
flags result from `play ()`, `record ()`, `stop ()`. -/
theorem record_snapshot_not_playing :
    ({} : TransportController).record.playing = true ∧
    ({} : TransportController).record.getTimeInfo.isRecording = true ∧
    ({} : TransportController).record.getTimeInfo.isPlaying = false ∧
    ({} : TransportController).play.getTimeInfo.isPlaying = true ∧
    ({} : TransportController).play.record.stop.getTimeInfo.isRecording = true ∧
    ({} : TransportController).play.record.stop.getTimeInfo.isPlaying = false :=
  ⟨rfl, rfl, rfl, rfl, rfl, rfl⟩

/-- C14: an advance step that is not a loop wrap never decreases
`timeInSamples` (it adds 48 when playing and nothing when stopped), and `play`,
`stop`, `record`, `setLoop` and `setTempo` leave `timeInSamples` unchanged. -/
theorem timeInSamples_monotone (tc : TransportController) (start stop bpm : ℚ)
    (hnowrap : ¬ (tc.cachedInfo.isLooping = true ∧ tc.loopEnd > tc.loopStart ∧
      (tc.cachedInfo.timeInSamples + 48) / 48000 ≥ tc.loopEnd)) :
    tc.cachedInfo.timeInSamples ≤ tc.hiResTimerCallback.cachedInfo.timeInSamples ∧
    (tc.playing = true →
      tc.hiResTimerCallback.cachedInfo.timeInSamples = tc.cachedInfo.timeInSamples + 48) ∧
    tc.play.cachedInfo.timeInSamples = tc.cachedInfo.timeInSamples ∧
    tc.stop.cachedInfo.timeInSamples = tc.cachedInfo.timeInSamples ∧
    tc.record.cachedInfo.timeInSamples = tc.cachedInfo.timeInSamples ∧
    (tc.setLoop start stop).cachedInfo.timeInSamples = tc.cachedInfo.timeInSamples ∧
    (tc.setTempo bpm).cachedInfo.timeInSamples = tc.cachedInfo.timeInSamples := by
  refine ⟨?_, ?_, rfl, rfl, rfl, rfl, rfl⟩
  · by_cases hp : tc.playing = true
    · rw [callback_no_wrap tc hp hnowrap]
      show tc.cachedInfo.timeInSamples ≤ tc.cachedInfo.timeInSamples + 48
      linarith
    · rw [callback_stopped tc (by simpa using hp)]
  · intro hp
    rw [callback_no_wrap tc hp hnowrap]

/-- Witness for C14: one advance step of `atLoopStart`, far from the loop end. -/
theorem timeInSamples_monotone_witness :
    atLoopStart.cachedInfo.timeInSamples ≤ atLoopStart.hiResTimerCallback.cachedInfo.timeInSamples :=
  (timeInSamples_monotone atLoopStart 0 0 120 (by
    norm_num [atLoopStart, TransportController.play, TransportController.setPosition,
      TransportController.setLoop])).1

/-! ### Automation manager: `addPoint` -/

theorem insertByTime_perm (p : AutomationPoint) (l : List AutomationPoint) :
    (insertByTime p l).Perm (p :: l) := by
  induction l with
  | nil => exact List.Perm.refl _
  | cons q qs ih =>
    unfold insertByTime
    split_ifs
    · exact (List.Perm.cons q ih).trans (List.Perm.swap p q qs)
    · exact List.Perm.refl _

theorem sortByTime_perm (l : List AutomationPoint) : (sortByTime l).Perm l := by
  induction l with
  | nil => exact List.Perm.refl _
  | cons p ps ih =>
    unfold sortByTime
    exact (insertByTime_perm p (sortByTime ps)).trans (List.Perm.cons p ih)

theorem insertByTime_sorted (p : AutomationPoint) (l : List AutomationPoint)
    (hs : SortedByTime l) : SortedByTime (insertByTime p l) := by
  induction l with
  | nil => simp [insertByTime, SortedByTime]
  | cons q qs ih =>
    unfold SortedByTime at hs
    obtain ⟨hq, hqs⟩ := List.pairwise_cons.mp hs
    unfold insertByTime
    split_ifs with hlt
    · unfold SortedByTime
      refine List.pairwise_cons.mpr ⟨?_, ih hqs⟩
      intro r hr
      rcases List.mem_cons.mp ((insertByTime_perm p qs).subset hr) with rfl | hr
      · exact le_of_lt hlt
      · exact hq r hr
    · unfold SortedByTime
      refine List.pairwise_cons.mpr ⟨?_, hs⟩
      intro r hr
      push_neg at hlt
      rcases List.mem_cons.mp hr with rfl | hr
      · exact hlt
      · exact le_trans hlt (hq r hr)

theorem sortByTime_sorted (l : List AutomationPoint) : SortedByTime (sortByTime l) := by
  induction l with
  | nil => simp [sortByTime, SortedByTime]
  | cons p ps ih =>
    unfold sortByTime
    exact insertByTime_sorted p _ ih

/-- C15: after `addPoint (trackId, paramId, p)` the lane for `(trackId,
paramId)` exists, carries the parameter id, is sorted ascending by time, and its
points are a permutation of the lane's previous points (none when the lane is
new) plus `p`; every other lane is unchanged. -/
theorem addPoint_sorted_perm (am : AutomationManager) (trackId paramId : String)
    (point : AutomationPoint) :
    ∃ lane1, (am.addPoint trackId paramId point).lane? trackId paramId = some lane1 ∧
      lane1.parameterId = paramId ∧
      SortedByTime lane1.points ∧
      lane1.points.Perm
        ((((am.lane? trackId paramId).map (fun l => l.points)).getD []) ++ [point]) ∧
      ∀ t p, (t, p) ≠ (trackId, paramId) →
        (am.addPoint trackId paramId point).lane? t p = am.lane? t p := by
  have hlane : ((((am.lanes trackId).getD (fun _ => none)) paramId).getD {}).points
      = ((am.lane? trackId paramId).map (fun l => l.points)).getD [] := by
    unfold AutomationManager.lane?
    cases h1 : am.lanes trackId with
    | none => rfl
    | some inner =>
      cases h2 : inner paramId with
      | none => simp [h2]
      | some lane => simp [h2]
  refine ⟨{ (((am.lanes trackId).getD (fun _ => none)) paramId).getD {} with
      parameterId := paramId
      points := sortByTime
        (((((am.lanes trackId).getD (fun _ => none)) paramId).getD {}).points ++ [point]) },
    ?_, rfl, sortByTime_sorted _, ?_, ?_⟩
  · simp [AutomationManager.lane?, AutomationManager.addPoint]
  · rw [← hlane]
    exact sortByTime_perm _
  · intro t p hne
    unfold AutomationManager.lane? AutomationManager.addPoint
    by_cases ht : t = trackId
    · subst ht
      have hp : p ≠ paramId := by
        intro h; exact hne (by rw [h])
      simp only [Function.update_same, Function.update_noteq hp]
      cases am.lanes t <;> rfl
    · simp only [Function.update_noteq ht]

/-! ### Command queue: first-in first-out -/

theorem ringIndex_lt (c s i : Nat) (hs : s < c) (hi : i < c) : ringIndex c s i < c := by
  unfold ringIndex; split_ifs <;> omega

theorem ringIndex_zero (c s : Nat) (hs : s < c) : ringIndex c s 0 = s := by
  unfold ringIndex; rw [if_pos (by omega)]; rfl

theorem ringIndex_shift (c s i : Nat) (hs : s < c) (hi : i + 1 < c) :
    ringIndex c (ringIndex c s 1) i = ringIndex c s (i + 1) := by
  unfold ringIndex; split_ifs <;> omega

theorem ringIndex_inj (c s i j : Nat) (hi : i < c) (hj : j < c)
    (h : ringIndex c s i = ringIndex c s j) : i = j := by
  unfold ringIndex at h; split_ifs at h <;> omega

theorem prepareToWrite_ring (c s n : Nat) (hs : s < c) (hn : n < c) :
    (AbstractFifo.mk c s (ringIndex c s n)).prepareToWrite 1
      = if n + 1 < c then ⟨(ringIndex c s n : Int), 1, 0, 0⟩ else ⟨0, 0, 0, 0⟩ := by
  unfold AbstractFifo.prepareToWrite ringIndex
  simp only
  split_ifs <;> simp <;> omega

theorem finishedWrite_ring (c s n : Nat) (hs : s < c) (hn : n + 1 < c) :
    (AbstractFifo.mk c s (ringIndex c s n)).finishedWrite 1
      = AbstractFifo.mk c s (ringIndex c s (n + 1)) := by
  unfold AbstractFifo.finishedWrite ringIndex
  simp only
  split_ifs <;> simp <;> omega

theorem prepareToRead_ring (c s n : Nat) (hs : s < c) (hn : n < c) :
    (AbstractFifo.mk c s (ringIndex c s n)).prepareToRead 1
      = if 0 < n then ⟨(s : Int), 1, 0, 0⟩ else ⟨0, 0, 0, 0⟩ := by
  unfold AbstractFifo.prepareToRead ringIndex
  simp only
  split_ifs <;> simp <;> omega

theorem finishedRead_ring (c s n : Nat) (hs : s < c) (hn : n + 1 < c) :
    (AbstractFifo.mk c s (ringIndex c s (n + 1))).finishedRead 1
      = AbstractFifo.mk c (ringIndex c s 1) (ringIndex c (ringIndex c s 1) n) := by
  unfold AbstractFifo.finishedRead ringIndex
  simp only
  split_ifs <;> simp <;> omega

theorem push_holds {T : Type} (q : LockFreeQueue T) (xs : List T) (x : T)
    (h : q.Holds xs) (hp : (q.push x).1 = true) : (q.push x).2.Holds (xs ++ [x]) := by
  obtain ⟨c, s, hb, hl, hvs, hsc, hn, hve, hbuf⟩ := h
  obtain ⟨⟨bs, vs, ve⟩, buffer⟩ := q
  simp only at hb hl hvs hve hbuf
  subst hb hvs hve
  unfold LockFreeQueue.push at hp ⊢
  rw [prepareToWrite_ring c s xs.length hsc hn] at hp ⊢
  by_cases hlt : xs.length + 1 < c
  · simp only [hlt, if_true, one_ne_zero, if_false, Int.toNat_ofNat]
    refine ⟨c, s, ?_, ?_, ?_, hsc, ?_, ?_, ?_⟩
    · rw [finishedWrite_ring c s xs.length hsc hlt]
    · simp [hl]
    · rw [finishedWrite_ring c s xs.length hsc hlt]
    · simpa using hlt
    · rw [finishedWrite_ring c s xs.length hsc hlt]
      simp
    · intro i hi
      simp only [List.length_append, List.length_singleton] at hi
      by_cases hin : i < xs.length
      · have hne : ringIndex c s xs.length ≠ ringIndex c s i := by
          intro heq
          have := ringIndex_inj c s xs.length i hn (by omega) heq
          omega
        rw [List.getElem?_set_ne hne, hbuf i hin, List.getElem?_append_left hin]
      · have hi' : i = xs.length := by omega
        subst hi'
        have hlt2 : ringIndex c s xs.length < buffer.length := by
          rw [hl]; exact ringIndex_lt c s _ hsc hn
        rw [List.getElem?_set_self hlt2]
        simp
  · simp [hlt] at hp

theorem pop_holds_cons {T : Type} (q : LockFreeQueue T) (x : T) (xs : List T) (out : T)
    (h : q.Holds (x :: xs)) :
    (q.pop out).1 = true ∧ (q.pop out).2.1 = x ∧ (q.pop out).2.2.Holds xs := by
  obtain ⟨c, s, hb, hl, hvs, hsc, hn, hve, hbuf⟩ := h
  obtain ⟨⟨bs, vs, ve⟩, buffer⟩ := q
  simp only [List.length_cons] at hb hl hvs hve hbuf hn
  subst hb hvs hve
  have h0 : buffer[s]? = some x := by
    have := hbuf 0 (by omega)
    rw [ringIndex_zero c s hsc] at this
    simpa using this
  unfold LockFreeQueue.pop
  rw [prepareToRead_ring c s (xs.length + 1) hsc hn]
  simp only [Nat.zero_lt_succ, if_true, one_ne_zero, if_false, Int.toNat_ofNat]
  refine ⟨trivial, ?_, ?_⟩
  · simp [List.getD, h0]
  · rw [finishedRead_ring c s xs.length hsc hn]
    refine ⟨c, ringIndex c s 1, rfl, hl, rfl, ringIndex_lt c s 1 hsc (by omega), by omega,
      rfl, ?_⟩
    intro i hi
    rw [ringIndex_shift c s i hsc (by omega), hbuf (i + 1) (by omega)]
    simp

theorem pop_holds_nil {T : Type} (q : LockFreeQueue T) (out : T) (h : q.Holds []) :
    q.pop out = (false, out, q) := by
  obtain ⟨c, s, hb, hl, hvs, hsc, hn, hve, hbuf⟩ := h
  obtain ⟨⟨bs, vs, ve⟩, buffer⟩ := q
  simp only [List.length_nil] at hb hl hvs hve hbuf hn
  subst hb hvs hve
  unfold LockFreeQueue.pop
  rw [prepareToRead_ring c s 0 hsc hn]
  simp

theorem init_holds {T : Type} (zero : T) (capacity : Nat) (h : 0 < capacity) :
    (LockFreeQueue.init zero capacity).Holds [] := by
  refine ⟨capacity, 0, rfl, by simp [LockFreeQueue.init], rfl, h, h, ?_, ?_⟩
  · simp [LockFreeQueue.init, AbstractFifo.init, ringIndex, h]
  · intro i hi
    simp at hi

theorem pushAll_holds {T : Type} (items : List T) : ∀ (q : LockFreeQueue T) (xs : List T),
    q.Holds xs → (∀ b ∈ (q.pushAll items).1, b = true) →
    (q.pushAll items).2.Holds (xs ++ items) := by
  induction items with
  | nil => intro q xs h _; simpa [LockFreeQueue.pushAll] using h
  | cons x rest ih =>
    intro q xs h hall
    simp only [LockFreeQueue.pushAll, List.mem_cons, forall_eq_or_imp] at hall ⊢
    have := ih (q.push x).2 (xs ++ [x]) (push_holds q xs x h hall.1) hall.2
    simpa [List.append_assoc] using this

theorem popN_holds {T : Type} (out : T) (xs : List T) : ∀ (q : LockFreeQueue T),
    q.Holds xs →
    (q.popN out xs.length).1 = xs.map (fun x => (true, x)) ∧
    (q.popN out xs.length).2.Holds [] := by
  induction xs with
  | nil => intro q h; exact ⟨rfl, h⟩
  | cons x rest ih =>
    intro q h
    obtain ⟨h1, h2, h3⟩ := pop_holds_cons q x rest out h
    obtain ⟨h4, h5⟩ := ih (q.pop out).2.2 h3
    simp only [List.length_cons, LockFreeQueue.popN, List.map_cons]
    exact ⟨by rw [h1, h2, h4], h5⟩

/-- C16: the queue is first-in first-out. For every empty queue (a well-formed
ring whose read and write index coincide) and every sequence of items whose
pushes all return true, the same number of pops each return true and yield the
items in the order they were pushed, and the pop after that returns false,
leaves its output argument unchanged and leaves the queue unchanged. -/
theorem fifo_order {T : Type} (q : LockFreeQueue T) (items : List T) (out out1 : T)
    (hempty : q.Holds [])
    (hpush : ∀ b ∈ (q.pushAll items).1, b = true) :
    ((q.pushAll items).2.popN out items.length).1 = items.map (fun x => (true, x)) ∧
    ((q.pushAll items).2.popN out items.length).2.pop out1
      = (false, out1, ((q.pushAll items).2.popN out items.length).2) := by
  have h1 := pushAll_holds items q [] hempty hpush
  rw [List.nil_append] at h1
  obtain ⟨h2, h3⟩ := popN_holds out items (q.pushAll items).2 h1
  exact ⟨h2, pop_holds_nil _ out1 h3⟩

/-- Witness for C16: three items through a fresh queue of capacity 4. -/
theorem fifo_order_witness :
    (((LockFreeQueue.init (0 : Int) 4).pushAll [10, 20, 30]).2.popN 0 3).1
      = [(true, 10), (true, 20), (true, 30)] ∧
    (((LockFreeQueue.init (0 : Int) 4).pushAll [10, 20, 30]).2.popN 0 3).2.pop 7
      = (false, 7, (((LockFreeQueue.init (0 : Int) 4).pushAll [10, 20, 30]).2.popN 0 3).2) :=
  fifo_order (LockFreeQueue.init (0 : Int) 4) [10, 20, 30] 0 7
    (init_holds 0 4 (by decide)) (by decide)

/-! ### Offline renderer -/

theorem stemLoop_outcome (cancelSeen : Nat → Bool) (total k : Nat)
    (hbefore : ∀ j, j < k → cancelSeen j = false) :
    ∀ (rest : List String) (i : Nat) (r : OfflineRenderer), i ≤ k → k ≤ i + rest.length →
      (k < i + rest.length → cancelSeen k = true) →
      (OfflineRenderer.stemLoop cancelSeen total i rest r).renderedStems
        = r.renderedStems ++ rest.take (k - i) ∧
      (OfflineRenderer.stemLoop cancelSeen total i rest r).currentProgress
        = (if k = i then r.currentProgress else (k : ℚ) / (total : ℚ)) := by
  intro rest
  induction rest with
  | nil =>
    intro i r hik hki _
    have : k = i := by simpa using Nat.le_antisymm hki hik
    simp [OfflineRenderer.stemLoop, this]
  | cons trackId rest ih =>
    intro i r hik hki hat
    simp only [List.length_cons] at hki hat
    by_cases hk : k = i
    · subst hk
      have hc : cancelSeen k = true := hat (by omega)
      simp [OfflineRenderer.stemLoop, hc]
    · have hlt : i < k := by omega
      have hc : cancelSeen i = false := hbefore i hlt
      obtain ⟨h1, h2⟩ := ih (i + 1)
        { (r.renderStem trackId) with currentProgress := ((i : ℚ) + 1) / (total : ℚ) }
        (by omega) (by omega) (fun h => hat (by omega))
      simp only [OfflineRenderer.stemLoop, hc, Bool.false_eq_true, if_false]
      rw [h1, h2]
      constructor
      · have hsub : k - i = (k - (i + 1)) + 1 := by omega
        rw [hsub, List.take_succ_cons]
        simp [OfflineRenderer.renderStem]
      · rw [if_neg hk]
        by_cases hk1 : k = i + 1
        · rw [if_pos hk1, hk1]
          push_cast
          rfl
        · rw [if_neg hk1]

theorem renderStems_outcome (cancelSeen : Nat → Bool) (r : OfflineRenderer)
    (stemTrackIds : List String) (k : Nat) (hk : k ≤ stemTrackIds.length)
    (hbefore : ∀ j, j < k → cancelSeen j = false)
    (hat : k < stemTrackIds.length → cancelSeen k = true) :
    (r.renderStems cancelSeen stemTrackIds).renderedStems
      = r.renderedStems ++ stemTrackIds.take k ∧
    (r.renderStems cancelSeen stemTrackIds).getProgress
      = { progress := (k : ℚ) / (stemTrackIds.length : ℚ), currentStage := "rendering",
          estimatedTimeRemaining := 0 } := by
  unfold OfflineRenderer.renderStems OfflineRenderer.run OfflineRenderer.getProgress
  simp only [if_true]
  obtain ⟨h1, h2⟩ := stemLoop_outcome cancelSeen stemTrackIds.length k hbefore stemTrackIds 0
    { r with isStems := true, stemIds := stemTrackIds, shouldCancel := false,
             currentProgress := 0 }
    (Nat.zero_le _) (by simpa using hk) (by simpa using hat)
  rw [h1, h2]
  refine ⟨by simp, ?_⟩
  by_cases hk0 : k = 0
  · simp [hk0]
  · simp [hk0]

/-- C17 (as stated, refuted): a stems render of `drums`, `bass` cancelled after
the first stem renders only `drums` and reports progress `1/2`, but the reported
stage is the string "rendering", the same as for the uncancelled render; there is
no Cancelled state to report. -/
theorem renderStems_cancelled_counterexample :
    (({} : OfflineRenderer).renderStems (cancelFrom 1) ["drums", "bass"]).renderedStems
      = ["drums"] ∧
    (({} : OfflineRenderer).renderStems (cancelFrom 1) ["drums", "bass"]).getProgress
      = { progress := 1 / 2, currentStage := "rendering", estimatedTimeRemaining := 0 } ∧
    (({} : OfflineRenderer).renderStems (cancelFrom 1) ["drums", "bass"]).getProgress.currentStage
      = (({} : OfflineRenderer).renderStems (cancelFrom 2) ["drums", "bass"]).getProgress.currentStage ∧
    (({} : OfflineRenderer).renderStems (cancelFrom 1) ["drums", "bass"]).getProgress.currentStage
      ≠ "Cancelled" := by
  obtain ⟨h1, h2⟩ := renderStems_outcome (cancelFrom 1) {} ["drums", "bass"] 1 (by decide)
    (by intro j hj; simp [cancelFrom]; omega) (by intro _; simp [cancelFrom])
  refine ⟨by simpa using h1, ?_, rfl, by decide⟩
  rw [h2]
  norm_num

/-- C17 (amended): for a stems render over the given track ids, `renderStem` is
called on the ids in the given order; if `cancel ()` is first seen by the check
made after exactly `k` stems have completed (`0 ≤ k ≤ N`) the renderer stops
without rendering further stems and `getProgress` reports `progress = k / N`
with the stage string "rendering" (the renderer has no Cancelled state);
without cancellation (`k = N ≥ 1`) all `N` stems are rendered and the progress
ends at 1. -/
theorem renderStems_cancel (cancelSeen : Nat → Bool) (r : OfflineRenderer)
    (stemTrackIds : List String) (k : Nat) (hk : k ≤ stemTrackIds.length)
    (hbefore : ∀ j, j < k → cancelSeen j = false)
    (hat : k < stemTrackIds.length → cancelSeen k = true) :
    (r.renderStems cancelSeen stemTrackIds).renderedStems
      = r.renderedStems ++ stemTrackIds.take k ∧
    (r.renderStems cancelSeen stemTrackIds).getProgress.progress
      = (k : ℚ) / (stemTrackIds.length : ℚ) ∧
    (r.renderStems cancelSeen stemTrackIds).getProgress.currentStage = "rendering" ∧
    (k = stemTrackIds.length → 1 ≤ stemTrackIds.length →
      (r.renderStems cancelSeen stemTrackIds).renderedStems = r.renderedStems ++ stemTrackIds ∧
      (r.renderStems cancelSeen stemTrackIds).getProgress.progress = 1) := by
  obtain ⟨h1, h2⟩ := renderStems_outcome cancelSeen r stemTrackIds k hk hbefore hat
  refine ⟨h1, by rw [h2], by rw [h2], ?_⟩
  intro hkn hpos
  rw [h1, h2, hkn, List.take_length]
  refine ⟨rfl, ?_⟩
  have : (stemTrackIds.length : ℚ) ≠ 0 := by
    have : 0 < stemTrackIds.length := hpos
    exact_mod_cast this.ne'
  exact div_self this

/-- Witness for C17: three stems, the cancel seen after the second. -/
theorem renderStems_cancel_witness :
    (({} : OfflineRenderer).renderStems (cancelFrom 2) ["drums", "bass", "keys"]).renderedStems
      = ([] : List String) ++ ["drums", "bass", "keys"].take 2 ∧
    (({} : OfflineRenderer).renderStems (cancelFrom 2)
        ["drums", "bass", "keys"]).getProgress.progress
      = ((2 : Nat) : ℚ) / ((["drums", "bass", "keys"].length : Nat) : ℚ) := by
  have h := renderStems_cancel (cancelFrom 2) {} ["drums", "bass", "keys"] 2 (by decide)
    (by intro j hj; simp [cancelFrom]; omega) (by intro _; simp [cancelFrom])
  exact ⟨h.1, h.2.1⟩

/-! ### Automation manager: Bezier view -/

theorem bezierSegments_length : ∀ (pts : List AutomationPoint),
    (bezierSegments pts).length = pts.length - 1
  | [] => rfl
  | [_] => rfl
  | a :: b :: rest => by
    have ih := bezierSegments_length (b :: rest)
    simp only [bezierSegments, List.length_cons] at ih ⊢
    omega

theorem bezierSegments_getElem : ∀ (pts : List AutomationPoint) (i : Nat)
    (a b : AutomationPoint), pts[i]? = some a → pts[i + 1]? = some b →
    (bezierSegments pts)[i]? = some
      { p0 := ⟨a.time, a.value⟩,
        p1 := ⟨a.time + (b.time - a.time) * (33 / 100), a.value⟩,
        p2 := ⟨a.time + (b.time - a.time) * (66 / 100), b.value⟩,
        p3 := ⟨b.time, b.value⟩ }
  | [], i, a, b, h1, _ => by simp at h1
  | [_], i, a, b, _, h2 => by simp at h2
  | x :: y :: rest, 0, a, b, h1, h2 => by
    simp only [List.getElem?_cons_zero, Option.some.injEq, zero_add,
      List.getElem?_cons_succ] at h1 h2
    subst h1 h2
    simp [bezierSegments]
  | x :: y :: rest, i + 1, a, b, h1, h2 => by
    simp only [List.getElem?_cons_succ] at h1 h2
    have ih := bezierSegments_getElem (y :: rest) i a b h1 (by simpa using h2)
    simpa [bezierSegments] using ih

/-- C19: for a lane with `n ≥ 2` points `convertToBezier` returns exactly
`n - 1` curves in lane order, the `i`-th with `p0`, `p3` the `(time, value)` of
points `i` and `i + 1` and the control points `p1 = (a.time + 0.33 (b.time -
a.time), a.value)`, `p2 = (a.time + 0.66 (b.time - a.time), b.value)`; for an
unknown track or parameter, or a lane with fewer than 2 points, it returns no
curves. It is a pure function of the manager, which it cannot modify. -/
theorem convertToBezier_segments (am : AutomationManager) (trackId paramId : String) :
    (∀ lane, am.lane? trackId paramId = some lane → 2 ≤ lane.points.length →
      (am.convertToBezier trackId paramId).length = lane.points.length - 1 ∧
      ∀ i a b, lane.points[i]? = some a → lane.points[i + 1]? = some b →
        (am.convertToBezier trackId paramId)[i]? = some
          { p0 := ⟨a.time, a.value⟩,
            p1 := ⟨a.time + (b.time - a.time) * (33 / 100), a.value⟩,
            p2 := ⟨a.time + (b.time - a.time) * (66 / 100), b.value⟩,
            p3 := ⟨b.time, b.value⟩ }) ∧
    (am.lane? trackId paramId = none → am.convertToBezier trackId paramId = []) ∧
    (∀ lane, am.lane? trackId paramId = some lane → lane.points.length < 2 →
      am.convertToBezier trackId paramId = []) := by
  unfold AutomationManager.lane? AutomationManager.convertToBezier
  cases h1 : am.lanes trackId with
  | none => simp
  | some inner =>
    cases h2 : inner paramId with
    | none => simp [h2]
    | some lane =>
      simp only [h2, Option.some.injEq, forall_eq', reduceCtorEq, false_implies, true_and]
      refine ⟨?_, ?_⟩
      · intro hn
        rw [if_neg (by omega)]
        exact ⟨bezierSegments_length _, bezierSegments_getElem _⟩
      · intro hn
        rw [if_pos hn]

/-- Witness for C19: the `gain` lane of track `drums` in `sampleAutomation` has
three points and yields two curves. -/
theorem convertToBezier_segments_witness :
    sampleAutomation.lane? "drums" "gain" = some sampleLane ∧
    2 ≤ sampleLane.points.length ∧
    (sampleAutomation.convertToBezier "drums" "gain").length = sampleLane.points.length - 1 :=
  ⟨rfl, by decide,
    ((convertToBezier_segments sampleAutomation "drums" "gain").1 sampleLane rfl
      (by decide)).1⟩

/-! ### Metronome: block splitting -/

theorem clickLoop_shift (sps : ℚ) (n : Nat) : ∀ (sample : Nat) (phase : ℚ),
    Metronome.clickLoop sps n sample phase
      = (Metronome.clickLoop sps n 0 phase).map (fun i => i + sample) := by
  induction n with
  | zero => intro sample phase; rfl
  | succ n ih =>
    intro sample phase
    simp only [Metronome.clickLoop]
    split_ifs
    · rw [ih (sample + 1), ih (0 + 1)]
      simp only [List.map_cons, List.map_map, zero_add]
      congr 1
      apply List.map_congr_left
      intro i _
      simp only [Function.comp_apply]
      omega
    · rw [ih (sample + 1), ih (0 + 1)]
      simp only [List.map_map]
      apply List.map_congr_left
      intro i _
      simp only [Function.comp_apply]
      omega

theorem process_disabled (m : Metronome) (buffer : AudioBuffer) (numSamples : Int)
    (h : m.enabled = false) : m.process buffer numSamples = (m, buffer) := by
  simp [Metronome.process, h]

/-- C20: the metronome does not depend on how the sample stream is cut into
blocks. For every metronome state (any phase), every `a`, `b` and any buffers,
one `process` call over `a + b` samples ends with the same metronome state as a
call over `a` samples followed by a call over `b` samples, and its click
positions are those of the first call followed by those of the second call
shifted by `a`; the buffer written by a call is the input buffer with the level
added to every channel at exactly the click positions; a disabled metronome
changes neither the buffer nor its state. -/
theorem process_block_split (m : Metronome) (buffer buf1 buf2 : AudioBuffer) (a b : Nat)
    (numSamples : Int) :
    (m.process buffer ((a + b : Nat) : Int)).1
      = ((m.process buf1 (a : Int)).1.process buf2 (b : Int)).1 ∧
    m.clicks ((a + b : Nat) : Int)
      = m.clicks (a : Int)
        ++ ((m.process buf1 (a : Int)).1.clicks (b : Int)).map (fun i => i + a) ∧
    (m.process buffer ((a + b : Nat) : Int)).2
      = (m.clicks ((a + b : Nat) : Int)).foldl
          (fun buf i => addToAllChannels buf i m.levelLin) buffer ∧
    (m.enabled = false → m.process buffer numSamples = (m, buffer)) := by
  refine ⟨?_, ?_, ?_, process_disabled m buffer numSamples⟩
  · by_cases h : m.enabled = true
    · have h1 : (m.process buf1 (a : Int)).1
          = { m with phase := Metronome.phaseAfter m.samplesPerSubdivision a m.phase } := by
        rw [process_enabled m buf1 a h]
      have h2 := process_enabled
        { m with phase := Metronome.phaseAfter m.samplesPerSubdivision a m.phase } buf2 b h
      rw [h1, h2, process_enabled m buffer (a + b) h, phaseAfter_add]
      rfl
    · have hf : m.enabled = false := by simpa using h
      rw [process_disabled m buffer _ hf, process_disabled m buf1 _ hf,
        process_disabled m buf2 _ hf]
  · by_cases h : m.enabled = true
    · have h1 : (m.process buf1 (a : Int)).1
          = { m with phase := Metronome.phaseAfter m.samplesPerSubdivision a m.phase } := by
        rw [process_enabled m buf1 a h]
      have h2 := clicks_enabled
        { m with phase := Metronome.phaseAfter m.samplesPerSubdivision a m.phase } b h
      rw [h1, h2, clicks_enabled m (a + b) h, clicks_enabled m a h, clickLoop_add,
        clickLoop_shift _ b (0 + a)]
      simp only [zero_add]
      rfl
    · have hf : m.enabled = false := by simpa using h
      rw [process_disabled m buf1 _ hf]
      simp [Metronome.clicks, hf]
  · by_cases h : m.enabled = true
    · rw [process_enabled m buffer (a + b) h, clicks_enabled m (a + b) h]
    · have hf : m.enabled = false := by simpa using h
      rw [process_disabled m buffer _ hf]
      simp [Metronome.clicks, hf]

end Flamquency
